import Mathlib

/-!
Verification of the drops-client library-synchronization core.

This file gives a shallow embedding of the catalog reconciler
(src/client_config.rs), the download pipeline (src/handlers/download.rs),
the download message handler (src/handlers/download.rs) and the
single-instance lock file (src/ipc.rs), and proves or refutes the
specification's claims about them.

Modelling conventions:
* Rust `String` is Lean `String`, `u64`/byte counts are `Nat`,
  `Uuid` is `Nat`, `DateTime<Utc>` is a `Nat` timestamp.
* Fallible Rust functions returning `Result<T, E>` become
  `Except String` / explicit sum results; `unwrap`/`panic!`-style
  partiality becomes `Option`.
* The `HashMap<String, Game>` built by `handle_game_response` is modelled
  as an association list with insert-overwrite semantics (the only map
  operations used are build-from-iterator, `remove`, and iterating the
  leftover values, whose order is used only through membership).
* `f32` progress percentages are modelled as rationals (`ℚ`); the spec's
  claims about percentages are stated "up to float tolerance" and the
  rational value is the exact value the `f32` code approximates.
-/

namespace Drops

/-! ## Data model (src/client_config.rs and the drops_messages request types) -/

/-- Release entry of the remote catalog (`ReleaseInfoResponse`). -/
structure ReleaseInfoResponse where
  channel : String
  version : String
  description : String
  release_date : Nat
  executable_path : String
  size_bytes : Nat
  deriving DecidableEq, Repr

/-- Game entry of the remote catalog (`GameInfoResponse`). -/
structure GameInfoResponse where
  name : String
  name_id : String
  description : String
  author : String
  default_channel : Option String
  releases : List ReleaseInfoResponse
  deriving DecidableEq, Repr

/-- The remote catalog response (`GetGamesResponse`). -/
structure GetGamesResponse where
  games : List GameInfoResponse
  deriving DecidableEq, Repr

/-- `ReleaseState` from src/client_config.rs. -/
inductive ReleaseState where
  | NotInstalled
  | Installed
  deriving DecidableEq, Repr

/-- `Release` from src/client_config.rs. -/
structure Release where
  channel_name : String
  version : String
  description : String
  state : ReleaseState
  release_date : Nat
  executable_path : String
  size_bytes : Nat
  deriving DecidableEq, Repr

/-- `Game` from src/client_config.rs. -/
structure Game where
  name : String
  name_id : String
  description : String
  author : String
  orphaned : Bool
  selected_channel : Option String
  releases : List Release
  deriving DecidableEq, Repr

/-- `DropsAccountConfig` from src/client_config.rs. -/
structure DropsAccountConfig where
  id : Nat
  games_dir : String
  url : String
  username : String
  session_token : String
  games : List Game
  deriving DecidableEq, Repr

/-- `ClientConfig` from src/client_config.rs. -/
structure ClientConfig where
  active_account : Nat
  accounts : List DropsAccountConfig
  is_active : Bool
  deriving DecidableEq, Repr

/-! ## The hash map used by `handle_game_response`

`HashMap<String, Game>` modelled as an association list.  Building the map
from an iterator inserts pairs one by one, later inserts overwriting the
value stored for an equal key. -/

/-- One `HashMap::insert`: overwrite the value when the key is present,
append the pair otherwise. -/
def hashMapInsert (m : List (String × Game)) (k : String) (v : Game) :
    List (String × Game) :=
  if m.any (fun p => p.1 = k) then
    m.map (fun p => if p.1 = k then (k, v) else p)
  else
    m ++ [(k, v)]

/-- `self.games.iter().map(|x| (x.name_id, x.clone())).collect::<HashMap<_,_>>()`. -/
def buildGameMap (games : List Game) : List (String × Game) :=
  games.foldl (fun m g => hashMapInsert m g.name_id g) []

/-- `HashMap::remove`: the stored value (if any) and the map without the key. -/
def mapRemove (m : List (String × Game)) (k : String) :
    Option Game × List (String × Game) :=
  ((m.find? (fun p => p.1 = k)).map (fun p => p.2),
   m.filter (fun p => ¬ p.1 = k))

/-! ## The catalog reconciler (src/client_config.rs, impl DropsAccountConfig) -/

/-- `DropsAccountConfig::create_new_release`. -/
def create_new_release (r : ReleaseInfoResponse) : Release :=
  { channel_name := r.channel
    description := r.description
    version := r.version
    state := ReleaseState.NotInstalled
    release_date := r.release_date
    executable_path := r.executable_path
    size_bytes := r.size_bytes }

/-- The `stored_game` built by `DropsAccountConfig::add_new_game`. -/
def newGameOf (game_info : GameInfoResponse) : Game :=
  let releases := game_info.releases.map create_new_release
  let selected_channel :=
    match game_info.default_channel with
    | some channel => some channel
    | none => releases.head?.map (fun r => r.channel_name)
  { name := game_info.name
    name_id := game_info.name_id
    description := game_info.description
    author := game_info.author
    releases := releases
    orphaned := false
    selected_channel := selected_channel }

/-- `DropsAccountConfig::add_new_game`: push the new game. -/
def add_new_game (acc : DropsAccountConfig) (game_info : GameInfoResponse) :
    DropsAccountConfig :=
  { acc with games := acc.games ++ [newGameOf game_info] }

/-- The `patched_game` built by `DropsAccountConfig::patch_existing_game`:
remote metadata, local selected channel, and releases = (remote releases
whose version is not already present, freshly created) ++ existing releases. -/
def patchedGame (existing_game : Game) (game_info : GameInfoResponse) : Game :=
  let new := game_info.releases.filter
    (fun x => ¬ existing_game.releases.any (fun y => y.version = x.version))
  { name := game_info.name
    name_id := existing_game.name_id
    description := game_info.description
    author := game_info.author
    orphaned := false
    selected_channel := existing_game.selected_channel
    releases := new.map create_new_release ++ existing_game.releases }

/-- `self.games.iter_mut().find(|x| x.name_id == p.name_id)` followed by
`*game = p`: replace the first game with the same name_id. -/
def replaceFirstGame : List Game → Game → List Game
  | [], _ => []
  | g :: rest, p =>
    if g.name_id = p.name_id then p :: rest else g :: replaceFirstGame rest p

/-- `DropsAccountConfig::patch_existing_game`: write the patched game back
over the first stored game with the same name_id, erroring when none exists. -/
def patch_existing_game (acc : DropsAccountConfig) (existing_game : Game)
    (game_info : GameInfoResponse) : Except String DropsAccountConfig :=
  let patched := patchedGame existing_game game_info
  if acc.games.any (fun g => g.name_id = patched.name_id) then
    Except.ok { acc with games := replaceFirstGame acc.games patched }
  else
    Except.error ("Failed to find patch game with name_id: " ++ patched.name_id)

/-- The `for x in game_info_response.games` loop of `handle_game_response`:
remove each remote entry's name_id from the map; patch when a stored game
was found, otherwise add a new game.  `?` propagates patch errors. -/
def processGames (acc : DropsAccountConfig) (m : List (String × Game)) :
    List GameInfoResponse →
    Except String (DropsAccountConfig × List (String × Game))
  | [] => Except.ok (acc, m)
  | x :: rest =>
    match mapRemove m x.name_id with
    | (none, m') => processGames (add_new_game acc x) m' rest
    | (some stored, m') =>
      match patch_existing_game acc stored x with
      | Except.error e => Except.error e
      | Except.ok acc' => processGames acc' m' rest

/-- `DropsAccountConfig::handle_game_response`: run the merge loop, then mark
every game whose name_id is left over in the map as orphaned. -/
def handle_game_response (acc : DropsAccountConfig)
    (game_info_response : GetGamesResponse) : Except String DropsAccountConfig :=
  match processGames acc (buildGameMap acc.games) game_info_response.games with
  | Except.error e => Except.error e
  | Except.ok (acc', m') =>
    let orphaned_games : List String := m'.map (fun p => p.2.name_id)
    if orphaned_games.length > 0 then
      let marked := acc'.games.map (fun g =>
        if orphaned_games.contains g.name_id then { g with orphaned := true }
        else g)
      Except.ok { acc' with games := marked }
    else
      Except.ok acc'

/-! ## ClientConfig-level sync (src/client_config.rs, impl ClientConfig)

`save` serializes the whole `ClientConfig` document to disk; persistence is
modelled as a `persisted` snapshot carried beside the in-memory config. -/

/-- In-memory config plus the last persisted on-disk snapshot. -/
structure Store where
  config : ClientConfig
  persisted : Option ClientConfig
  deriving DecidableEq, Repr

/-- `ClientConfig::get_active_account` (the `unwrap` is the caller's). -/
def get_active_account (c : ClientConfig) : Option DropsAccountConfig :=
  c.accounts.find? (fun a => a.id = c.active_account)

/-- `self.accounts.iter_mut().find(|x| x.id == account.id)` followed by
`*stored = account`. -/
def replaceFirstAccount : List DropsAccountConfig → DropsAccountConfig →
    List DropsAccountConfig
  | [], _ => []
  | a :: rest, acc =>
    if a.id = acc.id then acc :: rest else a :: replaceFirstAccount rest acc

/-- `ClientConfig::patch_account_and_save`: write the account back over the
stored account with the same id (panicking when absent, modelled as `none`),
then `save` the whole document. -/
def patch_account_and_save (s : Store) (account : DropsAccountConfig) :
    Option Store :=
  if s.config.accounts.any (fun a => a.id = account.id) then
    let cfg := { s.config with
      accounts := replaceFirstAccount s.config.accounts account }
    some { config := cfg, persisted := some cfg }
  else
    none

/-- `ClientConfig::sync_and_save`: clone the active account, merge the remote
catalog into the clone, and only on success write the clone back and persist.
`none` models the panics (`unwrap` of the active account, the
unreachable missing-account panic in `patch_account_and_save`). -/
def sync_and_save (s : Store) (game_info_response : GetGamesResponse) :
    Option (Except String Unit × Store) :=
  match get_active_account s.config with
  | none => none
  | some account =>
    match handle_game_response account game_info_response with
    | Except.error e => some (Except.error e, s)
    | Except.ok account' =>
      (patch_account_and_save s account').map (fun s' => (Except.ok (), s'))

/-! ## The download pipeline (src/handlers/download.rs, `Download::download`)

The async stream body of `try_channel` is modelled as a pure function from
the HTTP response to the list of emitted progress events and the terminal
result.  The HTTP response is `Except Unit chunks` (the `send().await?`
step), and each chunk of `bytes_stream()` is `Except Unit (List Nat)`
(bytes as naturals).  Zip parsing (`ZipArchive::new`) and extraction
(`unzip_file`) call the external zip library; they are parameters of the
model, and the run records whether they were reached at all. -/

/-- `DownloadError` from src/handlers/download.rs. -/
inductive DownloadError where
  | RequestFailed
  | EmptyResponse
  | IoError (msg : String)
  deriving DecidableEq, Repr

/-- `InstalledRelease` from src/api.rs. -/
structure InstalledRelease where
  game_name_id : String
  version : String
  channel_name : String
  deriving DecidableEq, Repr

/-- `DownloadProgress` from src/handlers/download.rs. -/
inductive DownloadProgress where
  | Downloading (percent : ℚ)
  | Finished (release : InstalledRelease)
  deriving DecidableEq, Repr

/-- The `while let Some(Ok(chunk)) = stream.next().await` loop: consume
chunks until the first error item or the end of the stream, accumulating
the byte count and buffer and emitting one progress event per chunk with
`percent = 100 * downloaded / total`. -/
def chunkLoop (total : Nat) :
    List (Except Unit (List Nat)) → Nat → List Nat →
    Nat × List Nat × List DownloadProgress
  | [], downloaded, buf => (downloaded, buf, [])
  | Except.error _ :: _, downloaded, buf => (downloaded, buf, [])
  | Except.ok chunk :: rest, downloaded, buf =>
    let downloaded' := downloaded + chunk.length
    let percent : ℚ := 100 * ((downloaded' : ℚ) / (total : ℚ))
    let r := chunkLoop total rest downloaded' (buf ++ chunk)
    (r.1, r.2.1, DownloadProgress.Downloading percent :: r.2.2)

instance instDecEqExcept {ε α : Type} [DecidableEq ε] [DecidableEq α] :
    DecidableEq (Except ε α)
  | Except.error a, Except.error b =>
    if h : a = b then isTrue (by rw [h])
    else isFalse (by intro hc; cases hc; exact h rfl)
  | Except.error _, Except.ok _ => isFalse (by intro hc; cases hc)
  | Except.ok _, Except.error _ => isFalse (by intro hc; cases hc)
  | Except.ok a, Except.ok b =>
    if h : a = b then isTrue (by rw [h])
    else isFalse (by intro hc; cases hc; exact h rfl)

/-- Observable outcome of one pipeline run: emitted events, whether the
buffer ever reached the zip-parsing stage, and the terminal result. -/
structure RunResult where
  events : List DownloadProgress
  parseReached : Bool
  result : Except DownloadError Unit
  deriving DecidableEq, Repr

/-- `Download::download` (src/handlers/download.rs): emit a 0% event, make
the request, consume the chunk stream, fail with `EmptyResponse` on zero
bytes, parse the buffer as a zip, extract it, then emit `Finished`.
`parseZip` models `ZipArchive::new`, `unzip` models `unzip_file`
(directory creation panics instead of erroring and is outside the model);
`release` is the `InstalledRelease` built from the download descriptor. -/
def download_run (parseZip unzip : List Nat → Except String Unit)
    (release : InstalledRelease)
    (response : Except Unit (List (Except Unit (List Nat))))
    (total : Nat) : RunResult :=
  match response with
  | Except.error _ =>
    { events := [DownloadProgress.Downloading 0]
      parseReached := false
      result := Except.error DownloadError.RequestFailed }
  | Except.ok chunks =>
    let r := chunkLoop total chunks 0 []
    let downloaded := r.1
    let zip_data := r.2.1
    let events := DownloadProgress.Downloading 0 :: r.2.2
    if downloaded = 0 then
      { events := events
        parseReached := false
        result := Except.error DownloadError.EmptyResponse }
    else
      match parseZip zip_data with
      | Except.error e =>
        { events := events
          parseReached := true
          result := Except.error (DownloadError.IoError e) }
      | Except.ok _ =>
        match unzip zip_data with
        | Except.error e =>
          { events := events
            parseReached := true
            result := Except.error (DownloadError.IoError e) }
        | Except.ok _ =>
          { events := events ++ [DownloadProgress.Finished release]
            parseReached := true
            result := Except.ok () }

/-! ## The download message handler (src/handlers/download.rs) -/

/-- `DownloadState` from src/handlers/download.rs. -/
inductive DownloadState where
  | Downloading (progress_percentage : ℚ)
  | Errored (e : DownloadError)
  deriving DecidableEq, Repr

/-- `DownloadRequest` from src/handlers/download.rs. -/
structure DownloadRequest where
  name_id : String
  game_dir : String
  drops_url : String
  session_token : String
  version : String
  channel_name : String
  size_bytes : Nat
  deriving DecidableEq, Repr

/-- `Download` from src/handlers/download.rs. -/
structure Download where
  game_name_id : String
  game_dir : String
  url : String
  session_token : String
  version : String
  channel_name : String
  size_bytes : Nat
  state : DownloadState
  deriving DecidableEq, Repr

/-- `Download::new`. -/
def Download.mk_new (request : DownloadRequest) : Download :=
  { game_name_id := request.name_id
    game_dir := request.game_dir
    url := request.drops_url
    session_token := request.session_token
    version := request.version
    channel_name := request.channel_name
    state := DownloadState.Downloading 0
    size_bytes := request.size_bytes }

/-- `DownloadMessageHandler` (its `downloads` task list). -/
structure DownloadMessageHandler where
  downloads : List Download
  deriving DecidableEq, Repr

/-- The messages routed to `DownloadMessageHandler::update`. -/
inductive DownloadMessage where
  | Download (request : DownloadRequest)
  | DownloadProgressing (id : String)
      (progress : Except DownloadError DownloadProgress)
  | CloseDownloadError (id : String)
  deriving DecidableEq, Repr

/-- The screens touched by the download handler. -/
inductive Screen where
  | Main
  | Downloading
  | Error (msg : String)
  | Other
  deriving DecidableEq, Repr

/-- The blackboard fields the download handler touches. -/
structure Blackboard where
  config : ClientConfig
  persisted : Option ClientConfig
  screen : Screen
  selected_game : Option Game
  selected_version : Option String
  deriving DecidableEq, Repr

/-- `game.releases.iter_mut().find(|y| y.version == version && y.channel_name
== channel_name)` followed by `release.state = state`: set the state of the
first matching release. -/
def setFirstReleaseState : List Release → String → String → ReleaseState →
    List Release
  | [], _, _, _ => []
  | r :: rest, version, channel_name, state =>
    if r.version = version ∧ r.channel_name = channel_name then
      { r with state := state } :: rest
    else
      r :: setFirstReleaseState rest version channel_name state

/-- `DropsAccountConfig::update_install_state`: find the game by name_id and
the release by (version, channel), erroring when either is missing. -/
def DropsAccountConfig.update_install_state (acc : DropsAccountConfig)
    (game_name_id version channel_name : String) (state : ReleaseState) :
    Except String DropsAccountConfig :=
  match acc.games.find? (fun g => g.name_id = game_name_id) with
  | none =>
    Except.error ("Failed to find game with name_id: " ++ game_name_id)
  | some game =>
    if game.releases.any
        (fun y => y.version = version ∧ y.channel_name = channel_name) then
      let game' := { game with
        releases := setFirstReleaseState game.releases version channel_name state }
      Except.ok { acc with games := replaceFirstGame acc.games game' }
    else
      Except.error ("Failed to find release " ++ version ++ " " ++ channel_name)

/-- `ClientConfig::update_install_state`: update the active account's copy and
write it back via `patch_account_and_save` (which also persists).  `none`
models the `unwrap`/`panic!` paths; on an update error nothing is mutated
or saved. -/
def ClientConfig.update_install_state (c : ClientConfig)
    (game_name_id version channel_name : String) (state : ReleaseState) :
    Option (Except String ClientConfig) :=
  match get_active_account c with
  | none => none
  | some account =>
    match account.update_install_state game_name_id version channel_name state with
    | Except.error e => some (Except.error e)
    | Except.ok account' =>
      if c.accounts.any (fun a => a.id = account'.id) then
        some (Except.ok { c with
          accounts := replaceFirstAccount c.accounts account' })
      else
        none

/-- `Blackboard::update_selected_game`: refresh the selected game from the
active account's games; `none` models the `unwrap` panics. -/
def Blackboard.update_selected_game (bb : Blackboard) : Option Blackboard :=
  match bb.selected_game with
  | none => some bb
  | some game =>
    match get_active_account bb.config with
    | none => none
    | some account =>
      match account.games.find? (fun x => x.name_id = game.name_id) with
      | none => none
      | some updated => some { bb with selected_game := some updated }

/-- `downloads.iter_mut().find(|x| x.game_name_id == id).unwrap().state = st`:
set the state of the first download task with the given game id. -/
def setFirstDownloadState : List Download → String → DownloadState →
    List Download
  | [], _, _ => []
  | d :: rest, id, st =>
    if d.game_name_id = id then { d with state := st } :: rest
    else d :: setFirstDownloadState rest id st

/-- `DownloadMessageHandler::update` (src/handlers/download.rs).  `none`
models the panicking `unwrap`/`expect` paths.  The platform-specific
shortcut-creation tail of the `Finished` arm references a `Game::app_link`
field that does not exist in the `Game` struct of src/client_config.rs
(revision skew inside the repository); the model therefore ends that arm
after the task-list `retain` and the `selected_game` unwrap, which is
where the last config/task mutation happens. -/
def DownloadMessageHandler.update (h : DownloadMessageHandler)
    (msg : DownloadMessage) (bb : Blackboard) :
    Option (DownloadMessageHandler × Blackboard) :=
  match msg with
  | DownloadMessage.Download request =>
    some ({ downloads := h.downloads ++ [Download.mk_new request] },
          { bb with screen := Screen.Downloading })
  | DownloadMessage.DownloadProgressing id
      (Except.ok (DownloadProgress.Downloading percent)) =>
    if h.downloads.any (fun x => x.game_name_id = id) then
      some ({ downloads := setFirstDownloadState h.downloads id
                (DownloadState.Downloading percent) }, bb)
    else
      none
  | DownloadMessage.DownloadProgressing id
      (Except.ok (DownloadProgress.Finished release)) =>
    match bb.config.update_install_state release.game_name_id release.version
        release.channel_name ReleaseState.Installed with
    | none => none
    | some r =>
      let bb1 :=
        match r with
        | Except.error _ =>
          { bb with screen := Screen.Error ("failed to update config install state") }
        | Except.ok c' =>
          { bb with config := c', persisted := some c' }
      match bb1.update_selected_game with
      | none => none
      | some bb2 =>
        let bb3 :=
          if bb2.selected_version.isNone then
            { bb2 with selected_version := some release.version }
          else bb2
        let bb4 := { bb3 with persisted := some bb3.config }
        let bb5 := { bb4 with screen := Screen.Main }
        let h' : DownloadMessageHandler :=
          { downloads := h.downloads.filter (fun x => ¬ x.game_name_id = id) }
        match bb5.selected_game with
        | none => none
        | some _ => some (h', bb5)
  | DownloadMessage.DownloadProgressing id (Except.error error) =>
    if h.downloads.any (fun x => x.game_name_id = id) then
      some ({ downloads := setFirstDownloadState h.downloads id
                (DownloadState.Errored error) }, bb)
    else
      none
  | DownloadMessage.CloseDownloadError id =>
    some ({ downloads := h.downloads.filter (fun x => ¬ x.game_name_id = id) },
          { bb with screen := Screen.Main })

/-! ## The instance lock file (src/ipc.rs, `LockFileWithDrop::new`)

`new` opens the lock file with `create(true).truncate(true)`, writes the
current process id into it, and only then calls `lock_exclusive`.  The
file-system side is modelled as the recorded contents plus whether another
live process currently holds the exclusive lock; the OS calls are also
recorded as an effect trace in execution order. -/

/-- Observable lock-file operations of `LockFileWithDrop::new`, in order. -/
inductive LockEffect where
  | openTruncate
  | writeContents (s : String)
  | lockExclusive
  deriving DecidableEq, Repr

/-- The lock file's state: its recorded contents (`none` = no file) and
whether another live process holds the exclusive lock. -/
structure LockFileState where
  contents : Option String
  lockedByOther : Bool
  deriving DecidableEq, Repr

/-- `LockFileWithDrop::new`: truncating open, write own pid, then
`lock_exclusive` (which fails while another process holds the lock).
Returns the result, the final file state, and the effect trace. -/
def lockFileNew (pid : Nat) (fs : LockFileState) :
    Except String Unit × LockFileState × List LockEffect :=
  let fs1 : LockFileState := { fs with contents := some "" }
  let fs2 : LockFileState := { fs1 with contents := some (toString pid) }
  let effects := [LockEffect.openTruncate,
                  LockEffect.writeContents (toString pid),
                  LockEffect.lockExclusive]
  if fs.lockedByOther then
    (Except.error ("Failed to lock lock file."), fs2, effects)
  else
    (Except.ok (), fs2, effects)

/-! ## Derived definitions used in theorem statements -/

/-- What one merge produces (proved equal to `handle_game_response` for
accounts and catalogs with pairwise-distinct name ids): every local game is
patched from its catalog entry or orphan-flagged, and catalog entries with
unknown name ids are appended as new games in catalog order. -/
def mergedGames (acc : DropsAccountConfig) (resp : GetGamesResponse) :
    List Game :=
  acc.games.map (fun g =>
    match resp.games.find? (fun x => x.name_id = g.name_id) with
    | some x => patchedGame g x
    | none => { g with orphaned := true }) ++
  (resp.games.filter
    (fun x => ¬ acc.games.any (fun g => g.name_id = x.name_id))).map newGameOf

/-- Mid-loop shape of the games list after the merge loop has consumed the
catalog prefix `pre`: local games patched from their entry in `pre` (if
any), and the unknown entries of `pre` appended as new games. -/
def midGames (games0 : List Game) (pre : List GameInfoResponse) : List Game :=
  games0.map (fun g =>
    match pre.find? (fun x => x.name_id = g.name_id) with
    | some x => patchedGame g x
    | none => g) ++
  (pre.filter
    (fun x => ¬ games0.any (fun g => g.name_id = x.name_id))).map newGameOf

/-- Mid-loop shape of the lookup map: the original games whose name id has
not yet been consumed by the merge loop. -/
def midMap (games0 : List Game) (pre : List GameInfoResponse) :
    List (String × Game) :=
  (games0.filter (fun g => ¬ pre.any (fun x => x.name_id = g.name_id))).map
    (fun g => (g.name_id, g))

/-- Release `(gid, ch, v)` is recorded as `Installed` in `games`. -/
def installedIn (games : List Game) (gid ch v : String) : Prop :=
  ∃ g ∈ games, g.name_id = gid ∧
    ∃ r ∈ g.releases, r.channel_name = ch ∧ r.version = v ∧
      r.state = ReleaseState.Installed

instance (games : List Game) (gid ch v : String) :
    Decidable (installedIn games gid ch v) := by
  unfold installedIn; infer_instance

/-- The percentages of the `Downloading` events of an event list, in order. -/
def percentsOf (evs : List DownloadProgress) : List ℚ :=
  evs.filterMap (fun e =>
    match e with
    | DownloadProgress.Downloading q => some q
    | DownloadProgress.Finished _ => none)

/-! ### Concrete fixtures for witnesses and counterexamples -/

/-- A catalog entry with name id "a" and no releases. -/
def exInfoA : GameInfoResponse :=
  { name := "A", name_id := "a", description := "", author := "",
    default_channel := none, releases := [] }

/-- An empty account. -/
def exAccEmpty : DropsAccountConfig :=
  { id := 0, games_dir := "d", url := "u", username := "n",
    session_token := "t", games := [] }

/-- An installed release on channel "stable", version "1.0". -/
def exRelStable : Release :=
  { channel_name := "stable", version := "1.0", description := "",
    state := ReleaseState.Installed, release_date := 0,
    executable_path := "run", size_bytes := 3 }

/-- A local game "g" holding only `exRelStable`. -/
def exGameG : Game :=
  { name := "G", name_id := "g", description := "", author := "",
    orphaned := false, selected_channel := some "stable",
    releases := [exRelStable] }

/-- A remote release on channel "beta" with the same version "1.0". -/
def exInfoBetaRel : ReleaseInfoResponse :=
  { channel := "beta", version := "1.0", description := "",
    release_date := 1, executable_path := "run", size_bytes := 5 }

/-- A catalog entry for "g" offering only the beta release. -/
def exInfoG : GameInfoResponse :=
  { name := "G", name_id := "g", description := "", author := "",
    default_channel := none, releases := [exInfoBetaRel] }

/-- An account holding `exGameG`. -/
def exAccG : DropsAccountConfig :=
  { id := 0, games_dir := "d", url := "u", username := "n",
    session_token := "t", games := [exGameG] }

/-- A client config whose single account `exAccG` is active. -/
def exConfigG : ClientConfig :=
  { active_account := 0, accounts := [exAccG], is_active := true }

/-- A release identity record for the pipeline fixtures. -/
def exInstalled : InstalledRelease :=
  { game_name_id := "g", version := "1.0", channel_name := "stable" }

/-- A download request for game "g1". -/
def exRequestG1 : DownloadRequest :=
  { name_id := "g1", game_dir := "d", drops_url := "u", session_token := "t",
    version := "1", channel_name := "s", size_bytes := 0 }

/-- A blackboard with an empty config. -/
def exBlackboard : Blackboard :=
  { config := { active_account := 0, accounts := [], is_active := true },
    persisted := none, screen := Screen.Main, selected_game := none,
    selected_version := none }


/-- A catalog carrying only `exInfoA`. -/
def exRespA : GetGamesResponse := { games := [exInfoA] }

/-- A catalog listing the same name id twice. -/
def exRespDup : GetGamesResponse := { games := [exInfoA, exInfoA] }

/-- A catalog carrying only `exInfoG`. -/
def exRespG : GetGamesResponse := { games := [exInfoG] }

/-- `exAccG` after merging `exRespA` (which orphans game "g"). -/
def exAccGAfter : DropsAccountConfig :=
  match handle_game_response exAccG exRespA with
  | Except.ok a => a
  | Except.error _ => exAccG

/-- `exAccGAfter` after merging `exRespG` (game "g" reappears). -/
def exAccGA2 : DropsAccountConfig :=
  match handle_game_response exAccGAfter exRespG with
  | Except.ok a => a
  | Except.error _ => exAccGAfter

/-- The empty account after one merge of the duplicate catalog. -/
def exAccDup1 : DropsAccountConfig :=
  match handle_game_response exAccEmpty exRespDup with
  | Except.ok a => a
  | Except.error _ => exAccEmpty

/-- `exAccDup1` after a second merge of the duplicate catalog. -/
def exAccDup2 : DropsAccountConfig :=
  match handle_game_response exAccDup1 exRespDup with
  | Except.ok a => a
  | Except.error _ => exAccDup1

/-- A store holding `exConfigG` with nothing persisted yet. -/
def exStoreG : Store := { config := exConfigG, persisted := none }

/-- The result of syncing `exRespA` into `exStoreG`. -/
def exSyncOut : Except String Unit × Store :=
  match sync_and_save exStoreG exRespA with
  | some out => out
  | none => (Except.error (""), exStoreG)


/-- A zip parser / extractor stub that accepts any buffer. -/
def exOkParse : List Nat → Except String Unit := fun _ => Except.ok ()

/-! ## Basic lemmas about the reconciler's building blocks -/

theorem patchedGame_name_id (g : Game) (x : GameInfoResponse) :
    (patchedGame g x).name_id = g.name_id := rfl

theorem newGameOf_name_id (x : GameInfoResponse) :
    (newGameOf x).name_id = x.name_id := rfl

theorem replaceFirstGame_map_name_id (l : List Game) (p : Game) :
    (replaceFirstGame l p).map Game.name_id = l.map Game.name_id := by
  induction l with
  | nil => rfl
  | cons g rest ih =>
    by_cases h : g.name_id = p.name_id
    · simp [replaceFirstGame, h]
    · simp [replaceFirstGame, h, ih]

theorem mem_replaceFirstGame_of_ne {l : List Game} {a : Game} (p : Game)
    (ha : a ∈ l) (hne : a.name_id ≠ p.name_id) : a ∈ replaceFirstGame l p := by
  induction l with
  | nil => cases ha
  | cons g rest ih =>
    by_cases h : g.name_id = p.name_id
    · rcases List.mem_cons.mp ha with rfl | hmem
      · exact absurd h hne
      · simp [replaceFirstGame, h, hmem]
    · rcases List.mem_cons.mp ha with rfl | hmem
      · simp [replaceFirstGame, h]
      · simp only [replaceFirstGame, if_neg h, List.mem_cons]
        exact Or.inr (ih hmem)

theorem mem_replaceFirstGame_elim {l : List Game} {p a : Game}
    (ha : a ∈ replaceFirstGame l p) : a = p ∨ a ∈ l := by
  induction l with
  | nil => cases ha
  | cons g rest ih =>
    by_cases h : g.name_id = p.name_id
    · simp only [replaceFirstGame, if_pos h, List.mem_cons] at ha
      rcases ha with rfl | hmem
      · exact Or.inl rfl
      · exact Or.inr (List.mem_cons_of_mem _ hmem)
    · simp only [replaceFirstGame, if_neg h, List.mem_cons] at ha
      rcases ha with rfl | hmem
      · exact Or.inr (List.mem_cons_self _ _)
      · rcases ih hmem with h1 | h2
        · exact Or.inl h1
        · exact Or.inr (List.mem_cons_of_mem _ h2)

theorem self_mem_replaceFirstGame {l : List Game} (p : Game)
    (h : ∃ g ∈ l, g.name_id = p.name_id) : p ∈ replaceFirstGame l p := by
  induction l with
  | nil => rcases h with ⟨g, hg, _⟩; cases hg
  | cons g rest ih =>
    by_cases hg : g.name_id = p.name_id
    · simp [replaceFirstGame, hg]
    · rcases h with ⟨g', hg', he⟩
      rcases List.mem_cons.mp hg' with rfl | hmem
      · exact absurd he hg
      · simp only [replaceFirstGame, if_neg hg, List.mem_cons]
        exact Or.inr (ih ⟨g', hmem, he⟩)

theorem replaceFirstGame_append_left (l1 l2 : List Game) (p : Game)
    (h : ∃ g ∈ l1, g.name_id = p.name_id) :
    replaceFirstGame (l1 ++ l2) p = replaceFirstGame l1 p ++ l2 := by
  induction l1 with
  | nil => rcases h with ⟨g, hg, _⟩; cases hg
  | cons g rest ih =>
    by_cases hg : g.name_id = p.name_id
    · simp [replaceFirstGame, hg]
    · rcases h with ⟨g', hg', he⟩
      rcases List.mem_cons.mp hg' with rfl | hmem
      · exact absurd he hg
      · simp [replaceFirstGame, hg, ih ⟨g', hmem, he⟩]

theorem replaceFirstGame_eq_map {l : List Game} (p : Game)
    (hnd : (l.map Game.name_id).Nodup) :
    replaceFirstGame l p =
      l.map (fun g => if g.name_id = p.name_id then p else g) := by
  induction l with
  | nil => rfl
  | cons g rest ih =>
    simp only [List.map_cons, List.nodup_cons] at hnd
    by_cases hg : g.name_id = p.name_id
    · simp only [replaceFirstGame, if_pos hg, List.map_cons]
      have : rest.map (fun g => if g.name_id = p.name_id then p else g) =
          rest.map id := by
        refine List.map_congr_left (fun a ha => ?_)
        have hne : a.name_id ≠ p.name_id := by
          intro heq
          exact hnd.1 (by
            rw [← hg] at heq
            exact heq ▸ List.mem_map_of_mem Game.name_id ha)
        simp [hne]
      rw [this, List.map_id]
    · simp only [replaceFirstGame, if_neg hg, List.map_cons]
      rw [ih hnd.2]

/-! ## Lemmas about the hash map model -/

theorem hashMapInsert_mem {m : List (String × Game)} {k : String} {v : Game}
    {p : String × Game} (hp : p ∈ hashMapInsert m k v) :
    p ∈ m ∨ p = (k, v) := by
  unfold hashMapInsert at hp
  by_cases h : m.any (fun q => q.1 = k) = true
  · rw [if_pos h] at hp
    rcases List.mem_map.mp hp with ⟨q, hq, he⟩
    by_cases h2 : q.1 = k
    · rw [if_pos h2] at he
      exact Or.inr he.symm
    · rw [if_neg h2] at he
      exact Or.inl (he ▸ hq)
  · rw [if_neg h] at hp
    rcases List.mem_append.mp hp with h1 | h2
    · exact Or.inl h1
    · exact Or.inr (List.mem_singleton.mp h2)

theorem hashMapInsert_of_not_mem {m : List (String × Game)} {k : String}
    (v : Game) (h : ¬ m.any (fun p => p.1 = k) = true) :
    hashMapInsert m k v = m ++ [(k, v)] := by
  unfold hashMapInsert
  rw [if_neg h]

theorem buildGameMap_aux_mem (S : List Game) :
    ∀ (l : List Game) (m : List (String × Game)),
    (∀ p ∈ m, p.2 ∈ S ∧ p.1 = p.2.name_id) → (∀ g ∈ l, g ∈ S) →
    ∀ p ∈ l.foldl (fun m g => hashMapInsert m g.name_id g) m,
      p.2 ∈ S ∧ p.1 = p.2.name_id := by
  intro l
  induction l with
  | nil => intro m hm _ p hp; exact hm p hp
  | cons g rest ih =>
    intro m hm hl p hp
    rw [List.foldl_cons] at hp
    refine ih _ ?_ (fun g' hg' => hl g' (List.mem_cons_of_mem _ hg')) p hp
    intro q hq
    rcases hashMapInsert_mem hq with h1 | rfl
    · exact hm q h1
    · exact ⟨hl g (List.mem_cons_self _ _), rfl⟩

theorem buildGameMap_mem {games : List Game} {p : String × Game}
    (hp : p ∈ buildGameMap games) : p.2 ∈ games ∧ p.1 = p.2.name_id :=
  buildGameMap_aux_mem games games [] (by simp) (fun _ h => h) p hp

theorem buildGameMap_aux_nodup :
    ∀ (l : List Game) (m : List (String × Game)),
    (l.map Game.name_id).Nodup →
    (∀ g ∈ l, ¬ m.any (fun p => p.1 = g.name_id) = true) →
    l.foldl (fun m g => hashMapInsert m g.name_id g) m =
      m ++ l.map (fun g => (g.name_id, g)) := by
  intro l
  induction l with
  | nil => intro m _ _; simp
  | cons g rest ih =>
    intro m hnd hdis
    rw [List.foldl_cons,
      hashMapInsert_of_not_mem g (hdis g (List.mem_cons_self _ _))]
    simp only [List.map_cons, List.nodup_cons] at hnd
    rw [ih (m ++ [(g.name_id, g)]) hnd.2 ?_]
    · simp
    · intro g' hg'
      simp only [List.any_append, Bool.or_eq_true]
      rintro (h1 | h2)
      · exact hdis g' (List.mem_cons_of_mem _ hg') h1
      · have heq : g.name_id = g'.name_id := by simpa using h2
        exact hnd.1 (heq ▸ List.mem_map_of_mem Game.name_id hg')

theorem buildGameMap_eq_of_nodup {games : List Game}
    (h : (games.map Game.name_id).Nodup) :
    buildGameMap games = games.map (fun g => (g.name_id, g)) := by
  have := buildGameMap_aux_nodup games [] h (by simp)
  simpa [buildGameMap] using this

/-! ## Generic find?/filter helpers -/

theorem find?_filter_of_imp {α : Type} (l : List α) (p q : α → Bool)
    (h : ∀ a, p a = true → q a = true) :
    (l.filter q).find? p = l.find? p := by
  induction l with
  | nil => rfl
  | cons a rest ih =>
    by_cases hq : q a = true
    · by_cases hp : p a = true
      · rw [List.filter_cons, if_pos hq, List.find?_cons_of_pos _ hp,
          List.find?_cons_of_pos _ hp]
      · rw [List.filter_cons, if_pos hq, List.find?_cons_of_neg _ hp,
          List.find?_cons_of_neg _ hp, ih]
    · have hp : ¬ p a = true := fun hp => hq (h a hp)
      rw [List.filter_cons, if_neg hq, List.find?_cons_of_neg _ hp, ih]

theorem find?_key_of_mem {α : Type} {β : Type} [DecidableEq β] (f : α → β)
    {l : List α} (hnd : (l.map f).Nodup) {a : α} (ha : a ∈ l) :
    l.find? (fun b => f b = f a) = some a := by
  cases hf : l.find? (fun b => f b = f a) with
  | none =>
    rw [List.find?_eq_none] at hf
    exact absurd (by simp) (hf a ha)
  | some b =>
    have hb := List.find?_some hf
    have hbm := List.mem_of_find?_eq_some hf
    have heq : f b = f a := by simpa using hb
    rw [List.inj_on_of_nodup_map hnd hbm ha heq]

/-! ## Mid-loop characterization of the merge -/


theorem midGame_entry_name_id (pre : List GameInfoResponse) (g : Game) :
    (match pre.find? (fun (x : GameInfoResponse) => x.name_id = g.name_id) with
     | some x => patchedGame g x
     | none => g).name_id = g.name_id := by
  cases pre.find? (fun (x : GameInfoResponse) => x.name_id = g.name_id) <;> rfl

theorem midMap_remove_found (G0 : List Game) (pre : List GameInfoResponse)
    (x : GameInfoResponse) (g0 : Game)
    (hx_pre : x.name_id ∉ pre.map GameInfoResponse.name_id)
    (hfind0 : G0.find? (fun g => g.name_id = x.name_id) = some g0) :
    mapRemove (midMap G0 pre) x.name_id =
      (some g0, midMap G0 (pre ++ [x])) := by
  unfold mapRemove midMap
  have himp : ∀ g : Game, decide (g.name_id = x.name_id) = true →
      decide (¬ pre.any (fun y => y.name_id = g.name_id) = true) = true := by
    intro g hg
    simp only [decide_eq_true_eq] at hg ⊢
    intro hany
    rcases List.any_eq_true.mp hany with ⟨y, hy, hyp⟩
    simp only [decide_eq_true_eq] at hyp
    exact hx_pre (List.mem_map.mpr ⟨y, hy, hyp.trans hg⟩)
  simp only [Prod.mk.injEq]
  constructor
  · -- the found value
    rw [List.find?_map]
    have hcomp : ((fun p : String × Game => decide (p.1 = x.name_id)) ∘
        (fun g : Game => (g.name_id, g))) =
        (fun g : Game => decide (g.name_id = x.name_id)) := rfl
    rw [hcomp, find?_filter_of_imp _ _ _ himp, hfind0]
    rfl
  · -- the map without the key
    rw [List.filter_map]
    have hcomp : ((fun p : String × Game => decide (¬ p.1 = x.name_id)) ∘
        (fun g : Game => (g.name_id, g))) =
        (fun g : Game => decide (¬ g.name_id = x.name_id)) := rfl
    rw [hcomp, List.filter_filter]
    refine congrArg _ (List.filter_congr (fun g _ => ?_))
    by_cases h1 : g.name_id = x.name_id
    · have hr : ((pre ++ [x]).any fun y => y.name_id = g.name_id) = true :=
        List.any_eq_true.mpr ⟨x, by simp, by simpa using h1.symm⟩
      simp [h1, hr]
    · have hx : (decide (x.name_id = g.name_id)) = false := by
        simp only [decide_eq_false_iff_not]
        intro he
        exact h1 he.symm
      simp [h1, List.any_append, hx]

theorem midMap_remove_missing (G0 : List Game) (pre : List GameInfoResponse)
    (x : GameInfoResponse)
    (hk : ¬ G0.any (fun g => g.name_id = x.name_id) = true) :
    mapRemove (midMap G0 pre) x.name_id =
      (none, midMap G0 (pre ++ [x])) := by
  unfold mapRemove midMap
  have hknot : ∀ g ∈ G0, ¬ g.name_id = x.name_id := by
    intro g hg he
    exact hk (List.any_eq_true.mpr ⟨g, hg, by simpa using he⟩)
  simp only [Prod.mk.injEq]
  constructor
  · rw [List.find?_map]
    have hcomp : ((fun p : String × Game => decide (p.1 = x.name_id)) ∘
        (fun g : Game => (g.name_id, g))) =
        (fun g : Game => decide (g.name_id = x.name_id)) := rfl
    rw [hcomp]
    have : (G0.filter
        (fun g => ¬ pre.any (fun y => y.name_id = g.name_id) = true)).find?
        (fun g => decide (g.name_id = x.name_id)) = none := by
      rw [List.find?_eq_none]
      intro g hg
      simp only [decide_eq_true_eq]
      exact hknot g (List.mem_filter.mp hg).1
    rw [this]
    rfl
  · rw [List.filter_map]
    have hcomp : ((fun p : String × Game => decide (¬ p.1 = x.name_id)) ∘
        (fun g : Game => (g.name_id, g))) =
        (fun g : Game => decide (¬ g.name_id = x.name_id)) := rfl
    rw [hcomp, List.filter_filter]
    refine congrArg _ (List.filter_congr (fun g hg => ?_))
    have h1 : ¬ g.name_id = x.name_id := hknot g hg
    have hx : (decide (x.name_id = g.name_id)) = false := by
      simp only [decide_eq_false_iff_not]
      intro he
      exact h1 he.symm
    simp [h1, List.any_append, hx]




theorem find?_none_of_not_mem_nid (pre : List GameInfoResponse) (k : String)
    (h : k ∉ pre.map GameInfoResponse.name_id) :
    pre.find? (fun (y : GameInfoResponse) => y.name_id = k) = none := by
  rw [List.find?_eq_none]
  intro y hy
  simp only [decide_eq_true_eq]
  intro he
  exact h (List.mem_map.mpr ⟨y, hy, he⟩)

theorem find?_append_singleton_ne (pre : List GameInfoResponse)
    (x : GameInfoResponse) (k : String) (hne : ¬ x.name_id = k) :
    (pre ++ [x]).find? (fun (y : GameInfoResponse) => y.name_id = k) =
      pre.find? (fun (y : GameInfoResponse) => y.name_id = k) := by
  rw [List.find?_append]
  have h1 : [x].find? (fun (y : GameInfoResponse) => y.name_id = k) = none := by
    rw [List.find?_cons_of_neg _ (by simpa using hne)]
    rfl
  rw [h1, Option.or_none]

theorem find?_append_singleton_self (pre : List GameInfoResponse)
    (x : GameInfoResponse) (k : String) (heq : x.name_id = k)
    (h : k ∉ pre.map GameInfoResponse.name_id) :
    (pre ++ [x]).find? (fun (y : GameInfoResponse) => y.name_id = k) = some x := by
  rw [List.find?_append, find?_none_of_not_mem_nid pre k h, Option.none_or,
    List.find?_cons_of_pos _ (by simpa using heq)]

theorem midGames_step_add (G0 : List Game) (pre : List GameInfoResponse)
    (x : GameInfoResponse)
    (hk : ¬ G0.any (fun g => g.name_id = x.name_id) = true) :
    midGames G0 pre ++ [newGameOf x] = midGames G0 (pre ++ [x]) := by
  unfold midGames
  rw [List.append_assoc]
  congr 1
  · refine List.map_congr_left (fun g hg => ?_)
    have hne : ¬ x.name_id = g.name_id := fun he =>
      hk (List.any_eq_true.mpr ⟨g, hg, by simpa using he.symm⟩)
    rw [find?_append_singleton_ne pre x g.name_id hne]
  · rw [List.filter_append]
    have h1 : [x].filter
        (fun y => ¬ G0.any (fun g => g.name_id = y.name_id) = true) = [x] := by
      simp only [List.filter_cons, List.filter_nil]
      rw [if_pos (by simpa using hk)]
    rw [h1, List.map_append]
    rfl

theorem midGames_step_patch (G0 : List Game) (pre : List GameInfoResponse)
    (x : GameInfoResponse) (g0 : Game)
    (hacc : (G0.map Game.name_id).Nodup)
    (hx_pre : x.name_id ∉ pre.map GameInfoResponse.name_id)
    (hfind0 : G0.find? (fun g => g.name_id = x.name_id) = some g0) :
    replaceFirstGame (midGames G0 pre) (patchedGame g0 x) =
      midGames G0 (pre ++ [x]) := by
  have hg0m : g0 ∈ G0 := List.mem_of_find?_eq_some hfind0
  have hg0k : g0.name_id = x.name_id := by
    simpa using List.find?_some hfind0
  have hk : G0.any (fun g => g.name_id = x.name_id) = true :=
    List.any_eq_true.mpr ⟨g0, hg0m, by simpa using hg0k⟩
  have hg0_pre : pre.find?
      (fun (y : GameInfoResponse) => y.name_id = g0.name_id) = none :=
    find?_none_of_not_mem_nid pre g0.name_id (by rw [hg0k]; exact hx_pre)
  have himg : (fun (g : Game) =>
      match pre.find? (fun (y : GameInfoResponse) => y.name_id = g.name_id) with
      | some x' => patchedGame g x'
      | none => g) g0 = g0 := by
    simp only [hg0_pre]
  unfold midGames
  rw [replaceFirstGame_append_left _ _ _
    ⟨g0, List.mem_map.mpr ⟨g0, hg0m, himg⟩, by rw [patchedGame_name_id]⟩]
  congr 1
  · -- the patched map part
    have hnids : ((G0.map (fun (g : Game) =>
        match pre.find? (fun (y : GameInfoResponse) => y.name_id = g.name_id) with
        | some x' => patchedGame g x'
        | none => g)).map Game.name_id).Nodup := by
      rw [List.map_map]
      have : (Game.name_id ∘ fun (g : Game) =>
          match pre.find? (fun (y : GameInfoResponse) => y.name_id = g.name_id) with
          | some x' => patchedGame g x'
          | none => g) = Game.name_id := by
        funext g
        simp only [Function.comp]
        cases pre.find? (fun (y : GameInfoResponse) => y.name_id = g.name_id) <;> rfl
      rw [this]
      exact hacc
    rw [replaceFirstGame_eq_map _ hnids, List.map_map]
    refine List.map_congr_left (fun g hg => ?_)
    simp only [Function.comp]
    by_cases hgnid : g.name_id = x.name_id
    · have hgg0 : g = g0 :=
        List.inj_on_of_nodup_map hacc hg hg0m (by rw [hgnid, hg0k])
      subst hgg0
      have himg2 : (match pre.find?
          (fun (y : GameInfoResponse) => y.name_id = g.name_id) with
        | some x' => patchedGame g x'
        | none => g) = g := by
        simp only [hg0_pre]
      rw [himg2, patchedGame_name_id, if_pos rfl,
        find?_append_singleton_self pre x g.name_id hg0k.symm
          (by rw [hgnid]; exact hx_pre)]
    · have hmid : (match pre.find?
          (fun (y : GameInfoResponse) => y.name_id = g.name_id) with
        | some x' => patchedGame g x'
        | none => g).name_id = g.name_id := by
        cases pre.find? (fun (y : GameInfoResponse) => y.name_id = g.name_id) <;> rfl
      rw [if_neg (by rw [hmid, patchedGame_name_id, hg0k]; exact hgnid)]
      rw [find?_append_singleton_ne pre x g.name_id (fun he => hgnid he.symm)]
  · -- the adds part: x is filtered out
    rw [List.filter_append]
    have h1 : [x].filter
        (fun y => ¬ G0.any (fun g => g.name_id = y.name_id) = true) = [] := by
      simp only [List.filter_cons, List.filter_nil]
      rw [if_neg (by simpa using hk)]
    rw [h1, List.append_nil]


theorem processGames_char (acc : DropsAccountConfig) :
    ∀ (rest pre : List GameInfoResponse),
    (acc.games.map Game.name_id).Nodup →
    (((pre ++ rest).map GameInfoResponse.name_id).Nodup) →
    processGames { acc with games := midGames acc.games pre }
        (midMap acc.games pre) rest =
      Except.ok ({ acc with games := midGames acc.games (pre ++ rest) },
        midMap acc.games (pre ++ rest)) := by
  intro rest
  induction rest with
  | nil =>
    intro pre hacc hnd
    simp [processGames]
  | cons x rest ih =>
    intro pre hacc hnd
    have hx_pre : x.name_id ∉ pre.map GameInfoResponse.name_id := by
      intro hmem
      rw [List.map_append] at hnd
      rcases List.nodup_append.mp hnd with ⟨_, _, hdisj⟩
      exact hdisj hmem (by simp)
    have hnd' : (((pre ++ [x]) ++ rest).map GameInfoResponse.name_id).Nodup := by
      simpa [List.append_assoc] using hnd
    have hassoc : (pre ++ [x]) ++ rest = pre ++ x :: rest := by
      simp
    by_cases hk : acc.games.any (fun g => g.name_id = x.name_id) = true
    · -- the stored game exists: patch branch
      have hks : ∃ g0, acc.games.find?
          (fun g => g.name_id = x.name_id) = some g0 := by
        cases hf : acc.games.find? (fun g => g.name_id = x.name_id) with
        | some g0 => exact ⟨g0, rfl⟩
        | none =>
          rw [List.find?_eq_none] at hf
          rcases List.any_eq_true.mp hk with ⟨g0, hm, hp⟩
          exact absurd hp (hf g0 hm)
      obtain ⟨g0, hfind0⟩ := hks
      have hg0m : g0 ∈ acc.games := List.mem_of_find?_eq_some hfind0
      have hg0k : g0.name_id = x.name_id := by
        simpa using List.find?_some hfind0
      have hg0_pre : pre.find?
          (fun (y : GameInfoResponse) => y.name_id = g0.name_id) = none :=
        find?_none_of_not_mem_nid pre g0.name_id (by rw [hg0k]; exact hx_pre)
      have himg : (fun (g : Game) =>
          match pre.find? (fun (y : GameInfoResponse) => y.name_id = g.name_id) with
          | some x' => patchedGame g x'
          | none => g) g0 = g0 := by
        simp only [hg0_pre]
      have hmr := midMap_remove_found acc.games pre x g0 hx_pre hfind0
      simp only [processGames, hmr]
      have hguard : (midGames acc.games pre).any
          (fun g => g.name_id = (patchedGame g0 x).name_id) = true := by
        refine List.any_eq_true.mpr ⟨g0, ?_, ?_⟩
        · exact List.mem_append.mpr (Or.inl (List.mem_map.mpr ⟨g0, hg0m, himg⟩))
        · simp [patchedGame_name_id]
      have hpatch : patch_existing_game
          { acc with games := midGames acc.games pre } g0 x =
          Except.ok { acc with games := midGames acc.games (pre ++ [x]) } := by
        unfold patch_existing_game
        rw [if_pos hguard]
        rw [midGames_step_patch acc.games pre x g0 hacc hx_pre hfind0]
      rw [hpatch]
      rw [← hassoc]
      exact ih (pre ++ [x]) hacc hnd'
    · -- no stored game: add branch
      have hmr := midMap_remove_missing acc.games pre x hk
      simp only [processGames, hmr]
      have hadd : add_new_game { acc with games := midGames acc.games pre } x =
          { acc with games := midGames acc.games (pre ++ [x]) } := by
        unfold add_new_game
        rw [midGames_step_add acc.games pre x hk]
      rw [hadd, ← hassoc]
      exact ih (pre ++ [x]) hacc hnd'

theorem midMap_full_nids (G0 : List Game) (resp : GetGamesResponse) :
    (midMap G0 resp.games).map (fun p => p.2.name_id) =
      (G0.filter
        (fun g => ¬ resp.games.any (fun x => x.name_id = g.name_id))).map
        Game.name_id := by
  unfold midMap
  rw [List.map_map]
  rfl

theorem handle_game_response_char (acc : DropsAccountConfig)
    (resp : GetGamesResponse)
    (hacc : (acc.games.map Game.name_id).Nodup)
    (hresp : (resp.games.map GameInfoResponse.name_id).Nodup) :
    handle_game_response acc resp =
      Except.ok { acc with games := mergedGames acc resp } := by
  have h0 : midGames acc.games [] = acc.games := by
    unfold midGames
    simp
  have heta : ({ acc with games := acc.games } : DropsAccountConfig) = acc := rfl
  have h1 : buildGameMap acc.games = midMap acc.games [] := by
    rw [buildGameMap_eq_of_nodup hacc]
    unfold midMap
    simp
  have h2 := processGames_char acc resp.games [] hacc (by simpa using hresp)
  rw [h0, heta] at h2
  simp only [List.nil_append] at h2
  unfold handle_game_response
  rw [h1, h2]
  dsimp only
  -- now reduce the orphan-marking step
  set O := acc.games.filter
    (fun g => ¬ resp.games.any (fun x => x.name_id = g.name_id)) with hO_def
  have horph : (midMap acc.games resp.games).map (fun p => p.2.name_id) =
      O.map Game.name_id := midMap_full_nids acc.games resp
  by_cases hO : O = []
  · -- nothing to orphan: lengths is zero, games already merged
    rw [horph, hO]
    simp only [List.map_nil, List.length_nil, gt_iff_lt, Nat.lt_irrefl,
      if_false]
    have hall : ∀ g ∈ acc.games,
        ∃ x, resp.games.find? (fun x => x.name_id = g.name_id) = some x := by
      intro g hg
      cases hf : resp.games.find? (fun x => x.name_id = g.name_id) with
      | some x => exact ⟨x, rfl⟩
      | none =>
        exfalso
        have : g ∈ O := by
          rw [hO_def, List.mem_filter]
          refine ⟨hg, ?_⟩
          simp only [decide_eq_true_eq]
          intro hany
          rcases List.any_eq_true.mp hany with ⟨x, hx, hxp⟩
          rw [List.find?_eq_none] at hf
          exact (hf x hx) hxp
        rw [hO] at this
        cases this
    congr 1
    congr 1
    unfold mergedGames midGames
    congr 1
    refine List.map_congr_left (fun g hg => ?_)
    rcases hall g hg with ⟨x, hx⟩
    rw [hx]
  · -- some games are orphaned
    rw [horph]
    have hlen : (O.map Game.name_id).length > 0 := by
      rw [List.length_map]
      exact List.length_pos.mpr hO
    rw [if_pos hlen]
    congr 1
    congr 1
    unfold mergedGames midGames
    rw [List.map_append]
    congr 1
    · -- patched/orphaned part
      rw [List.map_map]
      refine List.map_congr_left (fun g hg => ?_)
      simp only [Function.comp]
      cases hf : resp.games.find? (fun x => x.name_id = g.name_id) with
      | none =>
        have hgO : g ∈ O := by
          rw [hO_def, List.mem_filter]
          refine ⟨hg, ?_⟩
          simp only [decide_eq_true_eq]
          intro hany
          rcases List.any_eq_true.mp hany with ⟨x, hx, hxp⟩
          rw [List.find?_eq_none] at hf
          exact (hf x hx) hxp
        have hc : (O.map Game.name_id).contains g.name_id = true :=
          List.elem_iff.mpr (List.mem_map.mpr ⟨g, hgO, rfl⟩)
        dsimp only
        rw [hc]
        simp
      | some x =>
        have hc : (O.map Game.name_id).contains g.name_id = false := by
          rw [← Bool.not_eq_true]
          intro hc
          rcases List.mem_map.mp (List.elem_iff.mp hc) with ⟨h', hh', hhe⟩
          have hmem := (List.mem_filter.mp (hO_def ▸ hh')).2
          simp only [decide_eq_true_eq] at hmem
          refine hmem (List.any_eq_true.mpr ⟨x, List.mem_of_find?_eq_some hf, ?_⟩)
          have := List.find?_some hf
          simp only [decide_eq_true_eq] at this ⊢
          rw [this, hhe]
        dsimp only
        rw [patchedGame_name_id, hc]
        simp
    · -- freshly added part is not orphaned
      refine (List.map_congr_left (fun y hy => ?_)).trans (List.map_id _)
      rcases List.mem_map.mp hy with ⟨x, hxf, rfl⟩
      have hxm := List.mem_filter.mp hxf
      have hc : (O.map Game.name_id).contains (newGameOf x).name_id = false := by
        rw [← Bool.not_eq_true]
        intro hc
        rcases List.mem_map.mp (List.elem_iff.mp hc) with ⟨h', hh', hhe⟩
        have hh'G : h' ∈ acc.games := (List.mem_filter.mp (hO_def ▸ hh')).1
        have hxany := hxm.2
        simp only [decide_eq_true_eq] at hxany
        refine hxany (List.any_eq_true.mpr ⟨h', hh'G, ?_⟩)
        simp only [decide_eq_true_eq]
        rw [hhe]
        rfl
      rw [hc]
      simp

theorem create_new_release_version (r : ReleaseInfoResponse) :
    (create_new_release r).version = r.version := rfl

theorem patchedGame_idem (g : Game) (x : GameInfoResponse) :
    patchedGame (patchedGame g x) x = patchedGame g x := by
  unfold patchedGame
  simp only [Game.mk.injEq, true_and, and_true]
  have hnil : x.releases.filter
        (fun r => ¬ ((x.releases.filter
          (fun r' => ¬ g.releases.any
            (fun y => y.version = r'.version))).map create_new_release ++
          g.releases).any (fun y => y.version = r.version) = true) = [] := by
      rw [List.filter_eq_nil_iff]
      intro r hr
      simp only [decide_eq_true_eq, Decidable.not_not]
      by_cases hold : g.releases.any (fun y => y.version = r.version) = true
      · rcases List.any_eq_true.mp hold with ⟨y, hy, hyv⟩
        exact List.any_eq_true.mpr
          ⟨y, List.mem_append.mpr (Or.inr hy), hyv⟩
      · refine List.any_eq_true.mpr ⟨create_new_release r, ?_, ?_⟩
        · refine List.mem_append.mpr (Or.inl ?_)
          refine List.mem_map.mpr ⟨r, ?_, rfl⟩
          rw [List.mem_filter]
          exact ⟨hr, by simpa using hold⟩
        · simp [create_new_release_version]
  rw [hnil]
  rfl

theorem patchedGame_newGameOf (x : GameInfoResponse) :
    patchedGame (newGameOf x) x = newGameOf x := by
  unfold patchedGame newGameOf
  simp only [Game.mk.injEq, true_and, and_true]
  have hnil : x.releases.filter
        (fun r => ¬ (x.releases.map create_new_release).any
          (fun y => y.version = r.version) = true) = [] := by
      rw [List.filter_eq_nil_iff]
      intro r hr
      simp only [decide_eq_true_eq, Decidable.not_not]
      refine List.any_eq_true.mpr ⟨create_new_release r, List.mem_map.mpr ⟨r, hr, rfl⟩, ?_⟩
      simp [create_new_release_version]
  rw [hnil]
  rfl

theorem mergedGames_nodup (acc : DropsAccountConfig) (resp : GetGamesResponse)
    (hacc : (acc.games.map Game.name_id).Nodup)
    (hresp : (resp.games.map GameInfoResponse.name_id).Nodup) :
    ((mergedGames acc resp).map Game.name_id).Nodup := by
  unfold mergedGames
  rw [List.map_append, List.map_map, List.map_map]
  have hcomp1 : (Game.name_id ∘ fun (g : Game) =>
      match resp.games.find? (fun x => x.name_id = g.name_id) with
      | some x => patchedGame g x
      | none => { g with orphaned := true }) = Game.name_id := by
    funext g
    simp only [Function.comp]
    cases resp.games.find? (fun x => x.name_id = g.name_id) <;> rfl
  have hcomp2 : (Game.name_id ∘ newGameOf) =
      (fun (x : GameInfoResponse) => x.name_id) := rfl
  rw [hcomp1, hcomp2]
  rw [List.nodup_append]
  refine ⟨hacc, ?_, ?_⟩
  · have hsub : List.Sublist
        ((resp.games.filter (fun x =>
          ¬ acc.games.any (fun g => g.name_id = x.name_id))).map
            (fun (x : GameInfoResponse) => x.name_id))
        (resp.games.map GameInfoResponse.name_id) :=
      List.Sublist.map _ (List.filter_sublist _)
    exact hsub.nodup hresp
  · intro a ha hb
    rcases List.mem_map.mp hb with ⟨x, hxf, rfl⟩
    have hxm := List.mem_filter.mp hxf
    have hxnot := hxm.2
    simp only [decide_eq_true_eq] at hxnot
    rcases List.mem_map.mp ha with ⟨g, hg, hga⟩
    exact hxnot (List.any_eq_true.mpr ⟨g, hg, by simpa using hga⟩)

theorem mergedGames_merged (acc : DropsAccountConfig) (resp : GetGamesResponse)
    (hresp : (resp.games.map GameInfoResponse.name_id).Nodup) :
    mergedGames { acc with games := mergedGames acc resp } resp =
      mergedGames acc resp := by
  have hunf : mergedGames { acc with games := mergedGames acc resp } resp =
      (mergedGames acc resp).map (fun (g : Game) =>
        match resp.games.find? (fun x => x.name_id = g.name_id) with
        | some x => patchedGame g x
        | none => { g with orphaned := true }) ++
      (resp.games.filter (fun x => ¬ (mergedGames acc resp).any
        (fun g => g.name_id = x.name_id))).map newGameOf := rfl
  rw [hunf]
  have hfilter : resp.games.filter
      (fun x => ¬ (mergedGames acc resp).any
        (fun g => g.name_id = x.name_id)) = [] := by
    rw [List.filter_eq_nil_iff]
    intro x hx
    simp only [decide_eq_true_eq, Decidable.not_not]
    by_cases hk : acc.games.any (fun g => g.name_id = x.name_id) = true
    · rcases List.any_eq_true.mp hk with ⟨g, hg, hgp⟩
      simp only [decide_eq_true_eq] at hgp
      refine List.any_eq_true.mpr ⟨(fun (g : Game) =>
        match resp.games.find? (fun x' => x'.name_id = g.name_id) with
        | some x' => patchedGame g x'
        | none => { g with orphaned := true }) g, ?_, ?_⟩
      · exact List.mem_append.mpr (Or.inl (List.mem_map.mpr ⟨g, hg, rfl⟩))
      · simp only [decide_eq_true_eq]
        cases resp.games.find? (fun x' => x'.name_id = g.name_id) <;>
          simpa using hgp
    · refine List.any_eq_true.mpr ⟨newGameOf x, ?_, ?_⟩
      · refine List.mem_append.mpr (Or.inr ?_)
        refine List.mem_map.mpr ⟨x, ?_, rfl⟩
        rw [List.mem_filter]
        exact ⟨hx, by simpa using hk⟩
      · simp [newGameOf_name_id]
  rw [hfilter, List.map_nil, List.append_nil]
  refine (List.map_congr_left ?_).trans (List.map_id _)
  intro y hy
  unfold mergedGames at hy
  rcases List.mem_append.mp hy with hyM | hyA
  · rcases List.mem_map.mp hyM with ⟨g, hg, rfl⟩
    cases hf : resp.games.find? (fun x' => x'.name_id = g.name_id) with
    | some x =>
      dsimp only
      rw [patchedGame_name_id, hf]
      dsimp only
      exact patchedGame_idem g x
    | none =>
      dsimp only
      rw [hf]
      rfl
  · rcases List.mem_map.mp hyA with ⟨x, hxf, rfl⟩
    have hn : (newGameOf x).name_id = x.name_id := rfl
    rw [hn]
    have hxmem : x ∈ resp.games := (List.mem_filter.mp hxf).1
    rw [find?_key_of_mem GameInfoResponse.name_id hresp hxmem]
    dsimp only
    rw [patchedGame_newGameOf]
    rfl

theorem handle_game_response_idem (acc A1 : DropsAccountConfig)
    (resp : GetGamesResponse)
    (hacc : (acc.games.map Game.name_id).Nodup)
    (hresp : (resp.games.map GameInfoResponse.name_id).Nodup)
    (h1 : handle_game_response acc resp = Except.ok A1) :
    handle_game_response A1 resp = Except.ok A1 := by
  rw [handle_game_response_char acc resp hacc hresp] at h1
  injection h1 with h1
  subst h1
  have hnodup : (({ acc with games := mergedGames acc resp} :
      DropsAccountConfig).games.map Game.name_id).Nodup :=
    mergedGames_nodup acc resp hacc hresp
  rw [handle_game_response_char _ resp hnodup hresp]
  rw [mergedGames_merged acc resp hresp]

theorem installedIn_orphanMark (games : List Game) (ids : List String)
    (gid ch v : String) (h : installedIn games gid ch v) :
    installedIn
      (games.map (fun g => if ids.contains g.name_id then
        { g with orphaned := true } else g)) gid ch v := by
  rcases h with ⟨g, hg, hnid, r, hr, hprops⟩
  refine ⟨if ids.contains g.name_id then { g with orphaned := true } else g,
    List.mem_map.mpr ⟨g, hg, rfl⟩, ?_, r, ?_, hprops⟩
  · by_cases hc : ids.contains g.name_id = true
    · rw [if_pos hc]
      exact hnid
    · rw [if_neg hc]
      exact hnid
  · by_cases hc : ids.contains g.name_id = true
    · rw [if_pos hc]
      exact hr
    · rw [if_neg hc]
      exact hr

theorem processGames_installed_mono (gid ch v : String) :
    ∀ (rest : List GameInfoResponse) (cur : DropsAccountConfig)
      (m : List (String × Game)) (fin : DropsAccountConfig)
      (mfin : List (String × Game)),
    processGames cur m rest = Except.ok (fin, mfin) →
    (∀ p ∈ m, p.1 = p.2.name_id) →
    (∀ p ∈ m, ∀ g' ∈ cur.games, g'.name_id = p.1 →
      ∀ r ∈ g'.releases, r ∈ p.2.releases) →
    installedIn cur.games gid ch v →
    installedIn fin.games gid ch v := by
  intro rest
  induction rest with
  | nil =>
    intro cur m fin mfin hrun _ _ hP
    unfold processGames at hrun
    injection hrun with h
    rw [← (Prod.mk.injEq _ _ _ _).mp h |>.1]
    exact hP
  | cons x rest ih =>
    intro cur m fin mfin hrun hkey hsub hP
    simp only [processGames, mapRemove] at hrun
    cases hopt : m.find? (fun p => p.1 = x.name_id) with
    | none =>
      rw [hopt] at hrun
      dsimp only [Option.map_none'] at hrun
      refine ih (add_new_game cur x) _ fin mfin hrun ?_ ?_ ?_
      · intro p hp
        exact hkey p (List.mem_filter.mp hp).1
      · intro p hp g' hg' hnid
        have hpm := List.mem_filter.mp hp
        have hpkey : ¬ p.1 = x.name_id := by simpa using hpm.2
        unfold add_new_game at hg'
        rcases List.mem_append.mp hg' with hold | hnew
        · exact hsub p hpm.1 g' hold hnid
        · exfalso
          have : g' = newGameOf x := List.mem_singleton.mp hnew
          rw [this, newGameOf_name_id] at hnid
          exact hpkey (hnid ▸ rfl)
      · rcases hP with ⟨g, hg, hnid, hrest⟩
        exact ⟨g, List.mem_append.mpr (Or.inl hg), hnid, hrest⟩
    | some p0 =>
      rw [hopt] at hrun
      dsimp only [Option.map_some'] at hrun
      have hp0m : p0 ∈ m := List.mem_of_find?_eq_some hopt
      have hp0key : p0.1 = x.name_id := by simpa using List.find?_some hopt
      have hp0nid : p0.1 = p0.2.name_id := hkey p0 hp0m
      unfold patch_existing_game at hrun
      by_cases hguard : cur.games.any
          (fun g => g.name_id = (patchedGame p0.2 x).name_id) = true
      · rw [if_pos hguard] at hrun
        dsimp only at hrun
        refine ih _ _ fin mfin hrun ?_ ?_ ?_
        · intro p hp
          exact hkey p (List.mem_filter.mp hp).1
        · intro p hp g' hg' hnid
          have hpm := List.mem_filter.mp hp
          have hpkey : ¬ p.1 = x.name_id := by simpa using hpm.2
          rcases mem_replaceFirstGame_elim hg' with rfl | hold
          · exfalso
            rw [patchedGame_name_id, ← hp0nid, hp0key] at hnid
            exact hpkey (hnid ▸ rfl)
          · exact hsub p hpm.1 g' hold hnid
        · rcases hP with ⟨g, hg, hnid, r, hr, hprops⟩
          by_cases hgp : g.name_id = (patchedGame p0.2 x).name_id
          · refine ⟨patchedGame p0.2 x,
              self_mem_replaceFirstGame _ ⟨g, hg, hgp⟩, ?_, r, ?_, hprops⟩
            · rw [← hgp, hnid]
            · have hrin : r ∈ p0.2.releases := by
                refine hsub p0 hp0m g hg ?_ r hr
                rw [hgp, patchedGame_name_id, hp0nid]
              unfold patchedGame
              exact List.mem_append.mpr (Or.inr hrin)
          · exact ⟨g, mem_replaceFirstGame_of_ne _ hg hgp, hnid, r, hr, hprops⟩
      · rw [if_neg hguard] at hrun
        cases hrun
theorem handle_installed_mono (acc acc' : DropsAccountConfig)
    (resp : GetGamesResponse) (gid ch v : String)
    (hacc : (acc.games.map Game.name_id).Nodup)
    (hrun : handle_game_response acc resp = Except.ok acc')
    (h : installedIn acc.games gid ch v) :
    installedIn acc'.games gid ch v := by
  unfold handle_game_response at hrun
  cases hpg : processGames acc (buildGameMap acc.games) resp.games with
  | error e =>
    rw [hpg] at hrun
    cases hrun
  | ok pair =>
    obtain ⟨a1, m1⟩ := pair
    rw [hpg] at hrun
    have hmono : installedIn a1.games gid ch v := by
      refine processGames_installed_mono gid ch v resp.games acc _ a1 m1 hpg ?_ ?_ h
      · intro p hp
        exact (buildGameMap_mem hp).2
      · intro p hp g' hg' hnid r hr
        have hmem := buildGameMap_mem hp
        have hgp : g' = p.2 := List.inj_on_of_nodup_map hacc hg' hmem.1
          (by rw [hnid, hmem.2])
        rw [← hgp]
        exact hr
    dsimp only at hrun
    split at hrun
    · injection hrun with hrun
      rw [← hrun]
      exact installedIn_orphanMark a1.games _ gid ch v hmono
    · injection hrun with hrun
      rw [← hrun]
      exact hmono

theorem chunkLoop_events_downloading (total : Nat) :
    ∀ (chunks : List (Except Unit (List Nat))) (d : Nat) (buf : List Nat),
    ∀ e ∈ (chunkLoop total chunks d buf).2.2,
      ∃ q, e = DownloadProgress.Downloading q := by
  intro chunks
  induction chunks with
  | nil => intro d buf e he; cases he
  | cons c rest ih =>
    intro d buf e he
    cases c with
    | error u => cases he
    | ok chunk =>
      simp only [chunkLoop] at he
      rcases List.mem_cons.mp he with rfl | hmem
      · exact ⟨_, rfl⟩
      · exact ih _ _ e hmem

theorem chunkLoop_trunc (total : Nat) (e : Unit) :
    ∀ (pre : List (List Nat)) (tail : List (Except Unit (List Nat)))
      (d : Nat) (buf : List Nat),
    chunkLoop total (pre.map Except.ok ++ Except.error e :: tail) d buf =
      chunkLoop total (pre.map Except.ok) d buf := by
  intro pre
  induction pre with
  | nil => intro tail d buf; rfl
  | cons c pre ih =>
    intro tail d buf
    simp only [List.map_cons, List.cons_append, chunkLoop, List.append_eq]
    rw [ih]

theorem chunkLoop_all_ok (total : Nat) :
    ∀ (pre : List (List Nat)) (d : Nat) (buf : List Nat),
    (chunkLoop total (pre.map Except.ok) d buf).1 =
      d + (pre.map List.length).sum ∧
    (chunkLoop total (pre.map Except.ok) d buf).2.1 = buf ++ pre.flatten := by
  intro pre
  induction pre with
  | nil => intro d buf; simp [chunkLoop]
  | cons c pre ih =>
    intro d buf
    simp only [List.map_cons, chunkLoop]
    rcases ih (d + c.length) (buf ++ c) with ⟨h1, h2⟩
    refine ⟨?_, ?_⟩
    · rw [h1]
      simp [Nat.add_assoc]
    · rw [h2]
      simp [List.flatten, List.append_assoc]

theorem chunkLoop_chain (total : Nat) :
    ∀ (chunks : List (Except Unit (List Nat))) (d : Nat) (buf : List Nat),
    List.Chain' (· ≤ ·) ((100 * ((d : ℚ) / (total : ℚ))) ::
      percentsOf (chunkLoop total chunks d buf).2.2) := by
  intro chunks
  induction chunks with
  | nil => intro d buf; exact List.chain'_singleton _
  | cons c rest ih =>
    intro d buf
    cases c with
    | error u => exact List.chain'_singleton _
    | ok chunk =>
      simp only [chunkLoop, percentsOf, List.filterMap_cons]
      rw [List.chain'_cons]
      constructor
      · refine mul_le_mul_of_nonneg_left ?_ (by norm_num)
        refine div_le_div_of_nonneg_right ?_ (Nat.cast_nonneg total)
        exact_mod_cast Nat.le_add_right d chunk.length
      · exact ih (d + chunk.length) (buf ++ chunk)

theorem percentsOf_cons_downloading (q : ℚ) (evs : List DownloadProgress) :
    percentsOf (DownloadProgress.Downloading q :: evs) = q :: percentsOf evs := by
  simp [percentsOf]

theorem chunkLoop_last (total : Nat) :
    ∀ (chunks : List (Except Unit (List Nat))) (d : Nat) (buf : List Nat),
    (percentsOf (chunkLoop total chunks d buf).2.2 = [] ∧
      (chunkLoop total chunks d buf).1 = d) ∨
    (percentsOf (chunkLoop total chunks d buf).2.2).getLast? =
      some (100 * (((chunkLoop total chunks d buf).1 : ℚ) / (total : ℚ))) := by
  intro chunks
  induction chunks with
  | nil => intro d buf; exact Or.inl ⟨rfl, rfl⟩
  | cons c rest ih =>
    intro d buf
    cases c with
    | error u => exact Or.inl ⟨rfl, rfl⟩
    | ok chunk =>
      simp only [chunkLoop]
      rw [percentsOf_cons_downloading]
      rcases ih (d + chunk.length) (buf ++ chunk) with ⟨hnil, hfin⟩ | hlast
      · right
        rw [hnil, hfin]
        rfl
      · right
        cases hp : percentsOf
            (chunkLoop total rest (d + chunk.length) (buf ++ chunk)).2.2 with
        | nil => rw [hp] at hlast; cases hlast
        | cons b l =>
          rw [List.getLast?_cons_cons]
          rw [hp] at hlast
          exact hlast

theorem download_run_no_requestFailed (p u : List Nat → Except String Unit)
    (rel : InstalledRelease) (chunks : List (Except Unit (List Nat)))
    (total : Nat) :
    (download_run p u rel (Except.ok chunks) total).result ≠
      Except.error DownloadError.RequestFailed := by
  unfold download_run
  dsimp only
  split
  · simp
  · split
    · simp
    · split <;> simp

theorem download_run_parseReached (p u : List Nat → Except String Unit)
    (rel : InstalledRelease) (chunks : List (Except Unit (List Nat)))
    (total : Nat) (h : ¬ (chunkLoop total chunks 0 []).1 = 0) :
    (download_run p u rel (Except.ok chunks) total).parseReached = true := by
  unfold download_run
  dsimp only
  rw [if_neg h]
  split
  · rfl
  · split <;> rfl

theorem download_run_ok_events (p u : List Nat → Except String Unit)
    (rel : InstalledRelease) (chunks : List (Except Unit (List Nat)))
    (total : Nat)
    (hok : (download_run p u rel (Except.ok chunks) total).result =
      Except.ok ()) :
    (download_run p u rel (Except.ok chunks) total).events =
      (DownloadProgress.Downloading 0 :: (chunkLoop total chunks 0 []).2.2) ++
        [DownloadProgress.Finished rel] := by
  unfold download_run at hok ⊢
  dsimp only at hok ⊢
  by_cases h0 : (chunkLoop total chunks 0 []).1 = 0
  · rw [if_pos h0] at hok
    cases hok
  · rw [if_neg h0] at hok ⊢
    cases hp : p (chunkLoop total chunks 0 []).2.1 with
    | error e =>
      rw [hp] at hok
      simp at hok
    | ok a =>
      rw [hp] at hok
      dsimp only at hok ⊢
      cases hu : u (chunkLoop total chunks 0 []).2.1 with
      | error e =>
        rw [hu] at hok
        simp at hok
      | ok b =>
        rfl

/-! ## The claims -/
/-- C1: merge monotonicity — for every account satisfying the documented
name-id uniqueness invariant and every remote catalog, a release recorded
`Installed` before `handle_game_response` merges the catalog is still
`Installed` afterwards, whether or not it appears in the catalog. -/
theorem merge_monotonicity_installed (acc acc' : DropsAccountConfig)
    (resp : GetGamesResponse) (gid ch v : String)
    (hacc : (acc.games.map Game.name_id).Nodup)
    (hrun : handle_game_response acc resp = Except.ok acc')
    (h : installedIn acc.games gid ch v) :
    installedIn acc'.games gid ch v :=
  handle_installed_mono acc acc' resp gid ch v hacc hrun h

/-- Witness for C1 at a concrete account and catalog. -/
theorem merge_monotonicity_installed_witness :
    installedIn exAccGAfter.games "g" "stable" "1.0" :=
  merge_monotonicity_installed exAccG exAccGAfter exRespA "g" "stable" "1.0"
    (by decide) (by decide) (by decide)

/-- C3 counterexample: merging a catalog that lists the same name id twice
is not idempotent — the first merge creates two copies of the game and the
second merge creates a third. -/
theorem merge_idempotence_cex :
    handle_game_response exAccEmpty exRespDup = Except.ok exAccDup1 ∧
    handle_game_response exAccDup1 exRespDup = Except.ok exAccDup2 ∧
    exAccDup1.games.length = 2 ∧ exAccDup2.games.length = 3 ∧
    ¬ exAccDup2 = exAccDup1 := by decide

/-- C3 amended: merging the same catalog twice yields the same game and
release lists as merging it once, provided the account's games and the
catalog's entries each have pairwise-distinct name ids. -/
theorem merge_idempotence_nodup (acc A1 : DropsAccountConfig)
    (resp : GetGamesResponse)
    (hacc : (acc.games.map Game.name_id).Nodup)
    (hresp : (resp.games.map GameInfoResponse.name_id).Nodup)
    (h1 : handle_game_response acc resp = Except.ok A1) :
    handle_game_response A1 resp = Except.ok A1 :=
  handle_game_response_idem acc A1 resp hacc hresp h1

/-- Witness for C3 (amended) at a concrete account and catalog. -/
theorem merge_idempotence_nodup_witness :
    handle_game_response exAccGAfter exRespA = Except.ok exAccGAfter :=
  merge_idempotence_nodup exAccG exAccGAfter exRespA
    (by decide) (by decide) (by decide)

/-- C4 counterexample: a remote release whose version equals an existing
local release's version but whose channel differs ("beta" vs "stable") is
NOT added by the merge — the release filter compares versions only. -/
theorem release_identity_cex :
    (patchedGame exGameG exInfoG).releases = [exRelStable] ∧
    exInfoG.releases = [exInfoBetaRel] ∧
    exInfoBetaRel.channel = "beta" ∧ exInfoBetaRel.version = "1.0" ∧
    ¬ exGameG.releases.any
      (fun y => y.channel_name = "beta" ∧ y.version = "1.0") = true := by
  decide

/-- C4 amended: release identity under merge is the version string alone.
With pairwise-distinct versions on both sides, versions (and hence
(channel, version) pairs) stay unique, a remote release is created exactly
when its version is absent locally, and a remote release whose version is
already present is not added even on another channel. -/
theorem release_identity_version (g : Game) (x : GameInfoResponse)
    (h1 : (g.releases.map Release.version).Nodup)
    (h2 : (x.releases.map ReleaseInfoResponse.version).Nodup) :
    ((patchedGame g x).releases.map Release.version).Nodup ∧
    ((patchedGame g x).releases.map
      (fun r => (r.channel_name, r.version))).Nodup ∧
    (∀ r ∈ x.releases, (¬ ∃ y ∈ g.releases, y.version = r.version) →
      create_new_release r ∈ (patchedGame g x).releases) ∧
    (∀ r ∈ x.releases, (∃ y ∈ g.releases, y.version = r.version) →
      ∀ q ∈ (patchedGame g x).releases, q.version = r.version →
        q ∈ g.releases) := by
  have hvers : ((patchedGame g x).releases.map Release.version).Nodup := by
    unfold patchedGame
    dsimp only
    rw [List.map_append, List.map_map]
    rw [List.nodup_append]
    refine ⟨?_, h1, ?_⟩
    · have hcomp : (Release.version ∘ create_new_release) =
          ReleaseInfoResponse.version := rfl
      rw [hcomp]
      exact (List.Sublist.map _ (List.filter_sublist _)).nodup h2
    · intro a ha hb
      rcases List.mem_map.mp ha with ⟨r, hrf, hra⟩
      have hrm := List.mem_filter.mp hrf
      have hrnot := hrm.2
      simp only [decide_eq_true_eq] at hrnot
      rcases List.mem_map.mp hb with ⟨y, hy, hyv⟩
      refine hrnot (List.any_eq_true.mpr ⟨y, hy, ?_⟩)
      simp only [decide_eq_true_eq]
      rw [hyv, ← hra]
      rfl
  refine ⟨hvers, ?_, ?_, ?_⟩
  · exact List.Nodup.of_map Prod.snd (by
      rw [List.map_map]
      exact hvers)
  · intro r hr hnot
    unfold patchedGame
    dsimp only
    refine List.mem_append.mpr (Or.inl ?_)
    refine List.mem_map.mpr ⟨r, ?_, rfl⟩
    rw [List.mem_filter]
    refine ⟨hr, ?_⟩
    simp only [decide_eq_true_eq]
    intro hany
    rcases List.any_eq_true.mp hany with ⟨y, hy, hyp⟩
    simp only [decide_eq_true_eq] at hyp
    exact hnot ⟨y, hy, hyp⟩
  · intro r hr hex q hq hqv
    unfold patchedGame at hq
    dsimp only at hq
    rcases List.mem_append.mp hq with hnew | hold
    · exfalso
      rcases List.mem_map.mp hnew with ⟨r', hr'f, hr'q⟩
      have hr'm := List.mem_filter.mp hr'f
      have hr'not := hr'm.2
      simp only [decide_eq_true_eq] at hr'not
      rcases hex with ⟨y, hy, hyv⟩
      refine hr'not (List.any_eq_true.mpr ⟨y, hy, ?_⟩)
      simp only [decide_eq_true_eq]
      have : (create_new_release r').version = r'.version := rfl
      rw [hyv, ← hqv, ← hr'q, this]
    · exact hold

/-- Witness for C4 (amended) at a concrete game and catalog entry. -/
theorem release_identity_version_witness :
    ((patchedGame exGameG exInfoG).releases.map Release.version).Nodup ∧
    ((patchedGame exGameG exInfoG).releases.map
      (fun r => (r.channel_name, r.version))).Nodup ∧
    (∀ r ∈ exInfoG.releases,
      (¬ ∃ y ∈ exGameG.releases, y.version = r.version) →
      create_new_release r ∈ (patchedGame exGameG exInfoG).releases) ∧
    (∀ r ∈ exInfoG.releases,
      (∃ y ∈ exGameG.releases, y.version = r.version) →
      ∀ q ∈ (patchedGame exGameG exInfoG).releases, q.version = r.version →
        q ∈ exGameG.releases) :=
  release_identity_version exGameG exInfoG (by decide) (by decide)

/-- C7 counterexample: a `Download` message for game id "g1" arriving while
a task for "g1" already exists pushes a second task — afterwards the task
list holds two entries with the same game id. -/
theorem duplicate_download_cex :
    (DownloadMessageHandler.update ⟨[Download.mk_new exRequestG1]⟩
      (DownloadMessage.Download exRequestG1) exBlackboard).map
        (fun r => r.1.downloads.map Download.game_name_id) =
      some ["g1", "g1"] := by decide

/-- C7 amended: the update handler performs no duplicate check — every
`Download` message unconditionally appends a fresh task, so a request for
a game id that already has a task increases that game id's task count. -/
theorem duplicate_download_pushes (h : DownloadMessageHandler)
    (request : DownloadRequest) (bb : Blackboard) :
    DownloadMessageHandler.update h (DownloadMessage.Download request) bb =
      some ({ downloads := h.downloads ++ [Download.mk_new request] },
            { bb with screen := Screen.Downloading }) ∧
    ((h.downloads ++ [Download.mk_new request]).filter
      (fun d => d.game_name_id = request.name_id)).length =
      (h.downloads.filter
        (fun d => d.game_name_id = request.name_id)).length + 1 := by
  refine ⟨rfl, ?_⟩
  rw [List.filter_append]
  have : [Download.mk_new request].filter
      (fun d => d.game_name_id = request.name_id) =
      [Download.mk_new request] := by
    simp [Download.mk_new]
  rw [this, List.length_append]
  rfl

/-- C9 counterexample: a process (pid 7) that fails to acquire the lock has
already truncated the lock file and overwritten the previous contents "42"
with its own pid, and the write effect precedes the lock attempt. -/
theorem lock_order_cex :
    lockFileNew 7 { contents := some "42", lockedByOther := true } =
      (Except.error ("Failed to lock lock file."),
       { contents := some "7", lockedByOther := true },
       [LockEffect.openTruncate, LockEffect.writeContents "7",
        LockEffect.lockExclusive]) ∧
    ¬ (some "7" : Option String) = some "42" := by decide

/-- C9 amended: `LockFileWithDrop::new` opens the lock file with truncation
and writes its own pid BEFORE attempting the exclusive lock; whether or
not acquisition succeeds, the file ends up holding the new pid. -/
theorem lock_write_before_acquire (pid : Nat) (fs : LockFileState) :
    (lockFileNew pid fs).2.2 = [LockEffect.openTruncate,
      LockEffect.writeContents (toString pid), LockEffect.lockExclusive] ∧
    (lockFileNew pid fs).2.1.contents = some (toString pid) ∧
    (lockFileNew pid fs).1 = (if fs.lockedByOther then
      Except.error ("Failed to lock lock file.") else Except.ok ()) := by
  unfold lockFileNew
  by_cases h : fs.lockedByOther = true <;> simp [h]

/-- C2: reconcile atomicity — `sync_and_save` either fails leaving the
in-memory and persisted state exactly as they were, or succeeds and
persists the config holding the account merged from the *entire* catalog;
no partially merged account is ever persisted. -/
theorem sync_and_save_atomic (s : Store) (resp : GetGamesResponse)
    (out : Except String Unit × Store)
    (hrun : sync_and_save s resp = some out) :
    (∀ e, out.1 = Except.error e → out.2 = s) ∧
    (out.1 = Except.ok () → ∃ acc acc',
      get_active_account s.config = some acc ∧
      handle_game_response acc resp = Except.ok acc' ∧
      out.2.config = { s.config with
        accounts := replaceFirstAccount s.config.accounts acc' } ∧
      out.2.persisted = some out.2.config) := by
  unfold sync_and_save at hrun
  cases hacc : get_active_account s.config with
  | none =>
    rw [hacc] at hrun
    cases hrun
  | some acc =>
    rw [hacc] at hrun
    dsimp only at hrun
    cases hresp : handle_game_response acc resp with
    | error e =>
      rw [hresp] at hrun
      dsimp only at hrun
      injection hrun with h
      constructor
      · intro e' _
        rw [← h]
      · intro hok
        rw [← h] at hok
        cases hok
    | ok acc' =>
      rw [hresp] at hrun
      dsimp only at hrun
      unfold patch_account_and_save at hrun
      by_cases hany : s.config.accounts.any (fun a => a.id = acc'.id) = true
      · rw [if_pos hany] at hrun
        simp only [Option.map_some'] at hrun
        injection hrun with h
        constructor
        · intro e he
          rw [← h] at he
          cases he
        · intro _
          refine ⟨acc, acc', rfl, hresp, ?_, ?_⟩
          · rw [← h]
          · rw [← h]
      · rw [if_neg hany] at hrun
        simp at hrun

/-- Witness for C2 at a concrete store and catalog. -/
theorem sync_and_save_atomic_witness :
    (∀ e, exSyncOut.1 = Except.error e → exSyncOut.2 = exStoreG) ∧
    (exSyncOut.1 = Except.ok () → ∃ acc acc',
      get_active_account exStoreG.config = some acc ∧
      handle_game_response acc exRespA = Except.ok acc' ∧
      exSyncOut.2.config = { exStoreG.config with
        accounts := replaceFirstAccount exStoreG.config.accounts acc' } ∧
      exSyncOut.2.persisted = some exSyncOut.2.config) :=
  sync_and_save_atomic exStoreG exRespA exSyncOut (by decide)

/-- C5: orphan round-trip and frame — a local game absent from the merged
catalog is kept with `orphaned = true` and all other fields (including
every release record and its install state) unchanged; no game's name id
disappears; and when the game reappears in a later catalog the second
merge produces a game with `orphaned = false`, catalog metadata, the old
selected channel and all old release records still present. -/
theorem orphan_roundtrip_frame (acc A1 A2 : DropsAccountConfig)
    (resp resp2 : GetGamesResponse) (g : Game) (x : GameInfoResponse)
    (hacc : (acc.games.map Game.name_id).Nodup)
    (hresp : (resp.games.map GameInfoResponse.name_id).Nodup)
    (hresp2 : (resp2.games.map GameInfoResponse.name_id).Nodup)
    (h1 : handle_game_response acc resp = Except.ok A1)
    (hg : g ∈ acc.games)
    (habs : g.name_id ∉ resp.games.map GameInfoResponse.name_id)
    (h2 : handle_game_response A1 resp2 = Except.ok A2)
    (hx : x ∈ resp2.games) (hxg : x.name_id = g.name_id) :
    ({ g with orphaned := true } ∈ A1.games) ∧
    (∀ g' ∈ acc.games, ∃ g'' ∈ A1.games, g''.name_id = g'.name_id) ∧
    (∃ g'' ∈ A2.games, g''.name_id = g.name_id ∧ g''.orphaned = false ∧
      g''.name = x.name ∧ g''.description = x.description ∧
      g''.author = x.author ∧ g''.selected_channel = g.selected_channel ∧
      ∀ r ∈ g.releases, r ∈ g''.releases) := by
  rw [handle_game_response_char acc resp hacc hresp] at h1
  injection h1 with h1
  subst h1
  have hfind : resp.games.find?
      (fun (y : GameInfoResponse) => y.name_id = g.name_id) = none :=
    find?_none_of_not_mem_nid resp.games g.name_id habs
  refine ⟨?_, ?_, ?_⟩
  · unfold mergedGames
    refine List.mem_append.mpr (Or.inl ?_)
    refine List.mem_map.mpr ⟨g, hg, ?_⟩
    rw [hfind]
  · intro g' hg'
    unfold mergedGames
    refine ⟨(match resp.games.find?
        (fun (y : GameInfoResponse) => y.name_id = g'.name_id) with
      | some x' => patchedGame g' x'
      | none => { g' with orphaned := true }), ?_, ?_⟩
    · exact List.mem_append.mpr (Or.inl (List.mem_map.mpr ⟨g', hg', rfl⟩))
    · cases resp.games.find?
        (fun (y : GameInfoResponse) => y.name_id = g'.name_id) <;> rfl
  · have hA1nd : (({ acc with games := mergedGames acc resp} :
        DropsAccountConfig).games.map Game.name_id).Nodup :=
      mergedGames_nodup acc resp hacc hresp
    rw [handle_game_response_char _ resp2 hA1nd hresp2] at h2
    injection h2 with h2
    subst h2
    set gOr : Game := { g with orphaned := true } with hgOr
    have hgOrmem : gOr ∈ mergedGames acc resp := by
      unfold mergedGames
      refine List.mem_append.mpr (Or.inl (List.mem_map.mpr ⟨g, hg, ?_⟩))
      rw [hfind]
    have hfind2 : resp2.games.find?
        (fun (y : GameInfoResponse) => y.name_id = gOr.name_id) = some x := by
      have hkey := find?_key_of_mem GameInfoResponse.name_id hresp2 hx
      have hns : gOr.name_id = x.name_id := hxg.symm
      rw [hns]
      exact hkey
    refine ⟨patchedGame gOr x, ?_, ?_, ?_, ?_, ?_, ?_, ?_, ?_⟩
    · unfold mergedGames
      refine List.mem_append.mpr (Or.inl ?_)
      refine List.mem_map.mpr ⟨gOr, hgOrmem, ?_⟩
      rw [hfind2]
    · rw [patchedGame_name_id]
    · rfl
    · rfl
    · rfl
    · rfl
    · rfl
    · intro r hr
      unfold patchedGame
      exact List.mem_append.mpr (Or.inr hr)

/-- Witness for C5 at a concrete orphan-and-return scenario. -/
theorem orphan_roundtrip_frame_witness :
    ({ exGameG with orphaned := true } ∈ exAccGAfter.games) ∧
    (∀ g' ∈ exAccG.games, ∃ g'' ∈ exAccGAfter.games,
      g''.name_id = g'.name_id) ∧
    (∃ g'' ∈ exAccGA2.games, g''.name_id = exGameG.name_id ∧
      g''.orphaned = false ∧ g''.name = exInfoG.name ∧
      g''.description = exInfoG.description ∧
      g''.author = exInfoG.author ∧
      g''.selected_channel = exGameG.selected_channel ∧
      ∀ r ∈ exGameG.releases, r ∈ g''.releases) :=
  orphan_roundtrip_frame exAccG exAccGAfter exAccGA2 exRespA exRespG
    exGameG exInfoG (by decide) (by decide) (by decide) (by decide)
    (by decide) (by decide) (by decide) (by decide) (by decide)

/-- C6: empty-download failure — when the byte stream completes with zero
bytes received, the pipeline fails with `EmptyResponse`, the zip
parse/extract stage is never reached, and no `Finished` event is emitted. -/
theorem empty_download_fails (p u : List Nat → Except String Unit)
    (rel : InstalledRelease) (chunks : List (Except Unit (List Nat)))
    (total : Nat) (h0 : (chunkLoop total chunks 0 []).1 = 0) :
    (download_run p u rel (Except.ok chunks) total).result =
      Except.error DownloadError.EmptyResponse ∧
    (download_run p u rel (Except.ok chunks) total).parseReached = false ∧
    ∀ rel', DownloadProgress.Finished rel' ∉
      (download_run p u rel (Except.ok chunks) total).events := by
  unfold download_run
  dsimp only
  rw [if_pos h0]
  refine ⟨rfl, rfl, ?_⟩
  intro rel' hmem
  rcases List.mem_cons.mp hmem with h | h
  · cases h
  · rcases chunkLoop_events_downloading total chunks 0 [] _ h with ⟨q, hq⟩
    cases hq

/-- Witness for C6: a stream delivering one empty chunk. -/
theorem empty_download_fails_witness :
    (download_run (fun _ => Except.ok ()) (fun _ => Except.ok ())
      exInstalled (Except.ok [Except.ok []]) 5).result =
      Except.error DownloadError.EmptyResponse ∧
    (download_run (fun _ => Except.ok ()) (fun _ => Except.ok ())
      exInstalled (Except.ok [Except.ok []]) 5).parseReached = false ∧
    ∀ rel', DownloadProgress.Finished rel' ∉
      (download_run (fun _ => Except.ok ()) (fun _ => Except.ok ())
        exInstalled (Except.ok [Except.ok []]) 5).events :=
  empty_download_fails (fun _ => Except.ok ()) (fun _ => Except.ok ())
    exInstalled [Except.ok []] 5 (by decide)

/-- C8 counterexample: a successful run that received 2 bytes against an
expected size of 1 ends with a final progress of 200 percent, above 100. -/
theorem progress_bounds_cex :
    (download_run (fun _ => Except.ok ()) (fun _ => Except.ok ())
      exInstalled (Except.ok [Except.ok [0, 0]]) 1).result = Except.ok () ∧
    (percentsOf (download_run (fun _ => Except.ok ())
      (fun _ => Except.ok ()) exInstalled
      (Except.ok [Except.ok [0, 0]]) 1).events).getLast? =
      some (100 * (((2 : Nat) : ℚ) / ((1 : Nat) : ℚ))) ∧
    ¬ (100 * (((2 : Nat) : ℚ) / ((1 : Nat) : ℚ)) ≤ 100) := by
  refine ⟨rfl, rfl, by norm_num⟩

/-- C8 amended: for every successful run the emitted percentages are
non-decreasing, and the final progress value is at most 100 provided the
expected size is positive and the bytes received do not exceed it. -/
theorem progress_bounds (p u : List Nat → Except String Unit)
    (rel : InstalledRelease) (chunks : List (Except Unit (List Nat)))
    (total : Nat)
    (hok : (download_run p u rel (Except.ok chunks) total).result =
      Except.ok ()) :
    List.Chain' (· ≤ ·)
      (percentsOf (download_run p u rel (Except.ok chunks) total).events) ∧
    (0 < total → (chunkLoop total chunks 0 []).1 ≤ total →
      ∀ q, (percentsOf
        (download_run p u rel (Except.ok chunks) total).events).getLast? =
          some q → q ≤ 100) := by
  have hev := download_run_ok_events p u rel chunks total hok
  rw [hev]
  have hperc : percentsOf
      ((DownloadProgress.Downloading 0 ::
        (chunkLoop total chunks 0 []).2.2) ++
        [DownloadProgress.Finished rel]) =
      0 :: percentsOf (chunkLoop total chunks 0 []).2.2 := by
    unfold percentsOf
    rw [List.filterMap_append]
    simp
  rw [hperc]
  constructor
  · have hchain := chunkLoop_chain total chunks 0 []
    have h00 : (100 : ℚ) * (((0 : Nat) : ℚ) / (total : ℚ)) = 0 := by
      simp
    rw [h00] at hchain
    exact hchain
  · intro htot hle q hq
    rcases chunkLoop_last total chunks 0 [] with ⟨hnil, _⟩ | hlast
    · rw [hnil] at hq
      have h0q : (0 : ℚ) = q := by
        simpa using hq
      rw [← h0q]
      norm_num
    · cases hp : percentsOf (chunkLoop total chunks 0 []).2.2 with
      | nil =>
        rw [hp] at hlast
        cases hlast
      | cons b l =>
        rw [hp] at hq hlast
        rw [List.getLast?_cons_cons] at hq
        rw [hq] at hlast
        injection hlast with hlast
        rw [hlast]
        have hdiv : (((chunkLoop total chunks 0 []).1 : ℚ) / (total : ℚ)) ≤ 1 := by
          rw [div_le_one (by exact_mod_cast htot)]
          exact_mod_cast hle
        calc 100 * (((chunkLoop total chunks 0 []).1 : ℚ) / (total : ℚ))
            ≤ 100 * 1 := mul_le_mul_of_nonneg_left hdiv (by norm_num)
          _ = 100 := mul_one 100

/-- Witness for C8 (amended): two bytes against an expected size of 4. -/
theorem progress_bounds_witness :
    List.Chain' (· ≤ ·)
      (percentsOf (download_run (fun _ => Except.ok ())
        (fun _ => Except.ok ()) exInstalled
        (Except.ok [Except.ok [0], Except.ok [0]]) 4).events) ∧
    (0 < 4 → (chunkLoop 4 [Except.ok [0], Except.ok [0]] 0 []).1 ≤ 4 →
      ∀ q, (percentsOf (download_run (fun _ => Except.ok ())
        (fun _ => Except.ok ()) exInstalled
        (Except.ok [Except.ok [0], Except.ok [0]]) 4).events).getLast? =
          some q → q ≤ 100) :=
  progress_bounds (fun _ => Except.ok ()) (fun _ => Except.ok ())
    exInstalled [Except.ok [0], Except.ok [0]] 4 (by decide)

/-- C10: mid-stream error truncation — when a chunk errors after at least
one byte was accumulated, the run equals the run on the clean prefix: no
`RequestFailed` is surfaced, the partial buffer reaches the zip stage, and
if parsing and extraction succeed on the truncated bytes the run ends with
`Finished`. -/
theorem midstream_error_truncation (p u : List Nat → Except String Unit)
    (rel : InstalledRelease) (pre : List (List Nat))
    (tail : List (Except Unit (List Nat))) (total : Nat)
    (hbytes : 0 < (pre.map List.length).sum) :
    download_run p u rel
      (Except.ok (pre.map Except.ok ++ Except.error () :: tail)) total =
      download_run p u rel (Except.ok (pre.map Except.ok)) total ∧
    (download_run p u rel
      (Except.ok (pre.map Except.ok ++ Except.error () :: tail)) total).result ≠
      Except.error DownloadError.RequestFailed ∧
    (download_run p u rel
      (Except.ok (pre.map Except.ok ++ Except.error () :: tail))
        total).parseReached = true ∧
    (p pre.flatten = Except.ok () → u pre.flatten = Except.ok () →
      (download_run p u rel
        (Except.ok (pre.map Except.ok ++ Except.error () :: tail))
          total).result = Except.ok () ∧
      (download_run p u rel
        (Except.ok (pre.map Except.ok ++ Except.error () :: tail))
          total).events.getLast? = some (DownloadProgress.Finished rel)) := by
  have hnz : ¬ (chunkLoop total
      (pre.map Except.ok ++ Except.error () :: tail) 0 []).1 = 0 := by
    rw [chunkLoop_trunc, (chunkLoop_all_ok total pre 0 []).1]
    omega
  have htr : download_run p u rel
      (Except.ok (pre.map Except.ok ++ Except.error () :: tail)) total =
      download_run p u rel (Except.ok (pre.map Except.ok)) total := by
    unfold download_run
    dsimp only
    rw [chunkLoop_trunc]
  refine ⟨htr, download_run_no_requestFailed p u rel _ total, ?_, ?_⟩
  · exact download_run_parseReached p u rel _ total hnz
  · intro hp hu
    rw [htr]
    have hnz' : ¬ (chunkLoop total (pre.map Except.ok) 0 []).1 = 0 := by
      rw [(chunkLoop_all_ok total pre 0 []).1]
      omega
    have hbuf : (chunkLoop total (pre.map Except.ok) 0 []).2.1 =
        pre.flatten := by
      rw [(chunkLoop_all_ok total pre 0 []).2]
      rfl
    unfold download_run
    dsimp only
    rw [if_neg hnz', hbuf, hp, hu]
    dsimp only
    refine ⟨rfl, ?_⟩
    rw [List.getLast?_concat]

/-- Witness for C10: one byte, then a stream error, with a parser and an
extractor that accept the truncated buffer. -/
theorem midstream_error_truncation_witness :
    download_run exOkParse exOkParse exInstalled
      (Except.ok ([[7]].map Except.ok ++ Except.error () :: [Except.ok [9]]))
        2 =
      download_run exOkParse exOkParse exInstalled
        (Except.ok ([[7]].map Except.ok)) 2 ∧
    (download_run exOkParse exOkParse exInstalled
      (Except.ok ([[7]].map Except.ok ++ Except.error () :: [Except.ok [9]]))
        2).result ≠ Except.error DownloadError.RequestFailed ∧
    (download_run exOkParse exOkParse exInstalled
      (Except.ok ([[7]].map Except.ok ++ Except.error () :: [Except.ok [9]]))
        2).parseReached = true ∧
    (exOkParse [[7]].flatten = Except.ok () →
      exOkParse [[7]].flatten = Except.ok () →
      (download_run exOkParse exOkParse exInstalled
        (Except.ok ([[7]].map Except.ok ++
          Except.error () :: [Except.ok [9]])) 2).result = Except.ok () ∧
      (download_run exOkParse exOkParse exInstalled
        (Except.ok ([[7]].map Except.ok ++
          Except.error () :: [Except.ok [9]]))
            2).events.getLast? = some (DownloadProgress.Finished exInstalled)) :=
  midstream_error_truncation exOkParse exOkParse
    exInstalled [[7]] [Except.ok [9]] 2 (by decide)

end Drops
